import Mathlib

/-!
# terrafunk: the environment mapper and the evaluation pipeline of `main`

A shallow embedding of `terrafunk.go`.

* Go strings are Lean `String`s (sequences of Unicode code points).
* A Go `map[string]string` is an association list with at most one pair per key;
  it is observed through `GoMap.get?` (the Go expression `m[k]` with its `ok` flag).
* `main` is a function from the parsed command line and the collaborators it calls
  (options builder, evaluation-context builder, HCL parser and evaluator, JSON
  marshaller and indenter) to the ordered list of calls and writes it performs and
  the exit status of the process.
* `mainProcess` is the whole of `main` on the raw arguments: `flag.Parse()` of Go's
  flag package, which ends the process itself when it rejects the command line, and
  then `main`.
-/

set_option autoImplicit false

namespace Terrafunk

/-! ## Go library functions used by `parseEnvironmentVariables` -/

/-- Characters for which Go's `unicode.IsSpace` holds: the Latin-1 spaces
`\t \n \v \f \r`, space, U+0085, U+00A0, and the other code points with the
Unicode White_Space property. -/
def isSpace (c : Char) : Bool :=
  let r := c.toNat
  if r ≤ 0xFF then
    r = 0x09 || r = 0x0A || r = 0x0B || r = 0x0C || r = 0x0D || r = 0x20 || r = 0x85 || r = 0xA0
  else
    r = 0x1680 || (0x2000 ≤ r && r ≤ 0x200A) || r = 0x2028 || r = 0x2029 || r = 0x202F
      || r = 0x205F || r = 0x3000

/-- Go's `strings.TrimSpace`: the string without its leading and trailing white space. -/
def TrimSpace (s : String) : String :=
  ⟨((s.data.dropWhile isSpace).reverse.dropWhile isSpace).reverse⟩

/-- Go's `strings.Index` on code-point lists: the position of the first occurrence of
`sep` in `s`, if any. -/
def Index (sep : List Char) : List Char → Option Nat
  | [] => if sep = [] then some 0 else none
  | c :: cs =>
    if sep.isPrefixOf (c :: cs) then some 0
    else (Index sep cs).map (· + 1)

/-- The loop of Go's `strings.genSplit` for a non-empty separator: at most `k` cuts,
the last element is the unsplit remainder. -/
def splitLoop (sep : List Char) : Nat → List Char → List (List Char)
  | 0, s => [s]
  | k + 1, s =>
    match Index sep s with
    | none => [s]
    | some m => s.take m :: splitLoop sep k (s.drop (m + sep.length))

/-- The loop of Go's `strings.explode`: at most `k` single code points, then the rest. -/
def explodeLoop : Nat → List Char → List (List Char)
  | _, [] => []
  | 0, s => [s]
  | k + 1, c :: cs => if cs = [] then [[c]] else [c] :: explodeLoop k cs

/-- Go's `strings.SplitN(s, sep, n)` for `n ≥ 0`: `n = 0` gives no substrings, otherwise
at most `n` substrings, the last one being the unsplit remainder. (The Go code first
lowers `n` to `len(s) + 1`, which is the largest number of substrings there can be.) -/
def SplitN (s sep : String) (n : Nat) : List String :=
  if n = 0 then []
  else if sep = "" then (explodeLoop (n - 1) s.data).map String.mk
  else (splitLoop sep.data (n - 1) s.data).map String.mk

/-! ## Go maps -/

/-- A Go `map[string]string`: key/value pairs, at most one pair per key. -/
abbrev GoMap := List (String × String)

/-- The map made by `make(map[string]string)`. -/
def GoMap.empty : GoMap := []

/-- The Go lookup `v, ok := m[k]`. -/
def GoMap.get? : GoMap → String → Option String
  | [], _ => none
  | (k', v) :: m, k => if k' = k then some v else GoMap.get? m k

/-- The Go assignment `m[k] = v`: overwrite the pair of `k` when there is one, add a
pair otherwise. -/
def GoMap.set : GoMap → String → String → GoMap
  | [], k, v => [(k, v)]
  | (k', v') :: m, k, v => if k' = k then (k, v) :: m else (k', v') :: GoMap.set m k v

/-- The keys of a map. -/
def GoMap.keys (m : GoMap) : List String := m.map Prod.fst

/-! ## `parseEnvironmentVariables` -/

/-- One iteration of the loop of `parseEnvironmentVariables` on the entry
`environment[i]`. -/
def parseEnvironmentVariablesStep (environmentMap : GoMap) (entry : String) : GoMap :=
  let variableSplit := SplitN entry "=" 2
  if variableSplit.length = 2 then
    environmentMap.set (TrimSpace (variableSplit.getD 0 "")) (variableSplit.getD 1 "")
  else
    environmentMap

/-- The function `parseEnvironmentVariables` of `terrafunk.go`. -/
def parseEnvironmentVariables (environment : List String) : GoMap :=
  environment.foldl parseEnvironmentVariablesStep GoMap.empty

/-! ## The words of the specification on an entry -/

/-- The text of an entry before its first `=`, as the specification names it (the whole
entry when it has no `=`). It is compared with what `strings.SplitN` returns. -/
def textBeforeFirstEq (e : String) : String := ⟨e.data.takeWhile (fun c => c ≠ '=')⟩

/-- The text of an entry after its first `=`, as the specification names it (empty when
the entry has no `=`). It is compared with what `strings.SplitN` returns. -/
def textAfterFirstEq (e : String) : String := ⟨(e.data.dropWhile (fun c => c ≠ '=')).drop 1⟩

/-! ## The collaborators of `main` -/

/-- A Go `error`, observed through its message `err.Error()`. -/
abbrev GoError := String

/-- The severities of `hcl.Diagnostic`. -/
inductive DiagnosticSeverity
  | DiagError
  | DiagWarning
  deriving DecidableEq, Repr

/-- An `hcl.Diagnostic`, observed through its severity and the text of `diag.Error()`. -/
structure Diagnostic where
  Severity : DiagnosticSeverity
  Error : String
  deriving DecidableEq, Repr

/-- An `hcl.Pos`. -/
structure Pos where
  Line : Nat
  Column : Nat
  Byte : Nat
  deriving DecidableEq, Repr

/-- The two output streams of the process. -/
inductive Stream
  | Stdout
  | Stderr
  deriving DecidableEq, Repr

/-- A `log.Logger`: the stream it writes to, its line header text and its flags. -/
structure Logger where
  out : Stream
  pfx : String
  flag : Nat
  deriving DecidableEq, Repr

/-- The types of the values `main` only passes on between its collaborators. -/
structure Types where
  Options : Type
  EvalContext : Type
  Extensions : Type
  Expression : Type
  CtyValue : Type
  CtyType : Type

/-- The `options.TerragruntOptions` value: its `Env` field, which `main` assigns, and
the rest of it. -/
structure TerragruntOptions (τ : Types) where
  rest : τ.Options
  Env : GoMap

/-- The collaborators of `main` and the process environment. -/
structure World (τ : Types) where
  /-- The list `os.Environ()`. -/
  Environ : List String
  /-- The builder `options.NewTerragruntOptions(workingDir)`. -/
  NewTerragruntOptions : String → TerragruntOptions τ × Option GoError
  /-- The zero value `config.EvalContextExtensions{}`. -/
  blankExtensions : τ.Extensions
  /-- The builder `config.CreateTerragruntEvalContext(workingDir, opts, extensions)`. -/
  CreateTerragruntEvalContext :
    String → TerragruntOptions τ → τ.Extensions → τ.EvalContext × Option GoError
  /-- The parser `hclsyntax.ParseExpression(src, filename, start)`. -/
  ParseExpression : String → String → Pos → τ.Expression × List Diagnostic
  /-- The evaluator `expr.Value(ctx)`. -/
  Value : τ.Expression → τ.EvalContext → τ.CtyValue × List Diagnostic
  /-- The text the verb `%#v` prints for a value. -/
  GoString : τ.CtyValue → String
  /-- The getter `val.Type()`. -/
  CtyTypeOf : τ.CtyValue → τ.CtyType
  /-- The marshaller `ctyjson.Marshal(val, ty)`. -/
  Marshal : τ.CtyValue → τ.CtyType → String × Option GoError
  /-- The call `json.Indent(dst, src, pfx, indent)` on an empty buffer `dst`: the
  contents of `dst` after the call, and the error. -/
  Indent : String → String → String → String × Option GoError

/-- The command line after `flag.Parse()`: the three flags and `flag.Args()`. -/
structure Flags where
  expression : String
  workdir : String
  verbose : Bool
  extraArgs : List String
  deriving DecidableEq, Repr

/-- The errors of `flag.Parse()`: `flag.ErrHelp`, and the errors the flag package
makes with `failf`, each with the texts its message is formatted from. -/
inductive FlagError
  /-- The flag `-h` or `-help` was given and is not defined: `flag.ErrHelp`. -/
  | ErrHelp
  /-- The message `bad flag syntax: %s`. -/
  | badSyntax (arg : String)
  /-- The message `flag provided but not defined: -%s`. -/
  | notDefined (name : String)
  /-- The message `invalid boolean value %q for -%s: %v`. -/
  | invalidBoolean (value name : String)
  /-- The message `flag needs an argument: -%s`. -/
  | needsArgument (name : String)
  deriving DecidableEq, Repr

/-- The outcome of `flag.Parse()`: the flags and `flag.Args()`, or an error. -/
inductive ParseResult
  | parsed (args : Flags)
  | failed (err : FlagError)
  deriving DecidableEq, Repr

/-- What `main` does, in order: the calls of its collaborators, with arguments and
results, and the writes to the output streams. -/
inductive Event (τ : Types)
  /-- The call `flag.PrintDefaults()`. -/
  | PrintDefaults
  /-- The line the flag package prints in `failf` for an error of `flag.Parse()`. -/
  | Failf (err : FlagError)
  /-- The call of the usage function of the flag package: the line `Usage of ...:` and
  the flag defaults. -/
  | Usage
  /-- A call of `Printf` (or of the printing part of `Fatalf`) on a logger, with the
  formatted message. -/
  | Printf (l : Logger) (msg : String)
  /-- A call of `fmt.Printf` with the formatted text. -/
  | Print (text : String)
  | NewTerragruntOptions (workingDir : String) (ret : TerragruntOptions τ × Option GoError)
  | CreateTerragruntEvalContext (workingDir : String) (opts : TerragruntOptions τ)
      (extensions : τ.Extensions) (ret : τ.EvalContext × Option GoError)
  | ParseExpression (src filename : String) (start : Pos)
      (ret : τ.Expression × List Diagnostic)
  | Value (expr : τ.Expression) (ctx : τ.EvalContext) (ret : τ.CtyValue × List Diagnostic)
  | Marshal (val : τ.CtyValue) (ty : τ.CtyType) (ret : String × Option GoError)
  | Indent (src pfx indent : String) (ret : String × Option GoError)

/-- What a stream receives from one event. -/
inductive Written
  /-- The usage text of `flag.PrintDefaults()`. -/
  | defaults
  /-- The line of the flag package for an error of `flag.Parse()`. -/
  | flagError (err : FlagError)
  /-- The line `Usage of ...:` followed by the flag defaults. -/
  | usage
  /-- One record of a logger: its header text, the date and time, the message. -/
  | logLine (pfx msg : String)
  /-- The bytes of a text, nothing added. -/
  | text (s : String)
  deriving DecidableEq, Repr

/-- What the stream `s` receives from an event: the flag defaults and the texts of the
flag package go to the error stream, a logger record to the stream of the logger,
`fmt.Printf` to standard output. -/
def written {τ : Types} (s : Stream) : Event τ → Option Written
  | .PrintDefaults => if s = .Stderr then some .defaults else none
  | .Failf err => if s = .Stderr then some (.flagError err) else none
  | .Usage => if s = .Stderr then some .usage else none
  | .Printf l msg => if l.out = s then some (.logLine l.pfx msg) else none
  | .Print text => if s = .Stdout then some (.text text) else none
  | _ => none

/-- One run of `main`: what it did, and the exit status of the process. -/
structure Run (τ : Types) where
  trace : List (Event τ)
  exit : Nat

/-- What standard output received during a run. -/
def Run.stdout {τ : Types} (r : Run τ) : List Written := r.trace.filterMap (written .Stdout)

/-- What the error stream received during a run. -/
def Run.stderr {τ : Types} (r : Run τ) : List Written := r.trace.filterMap (written .Stderr)

/-- The path separator `os.PathSeparator` of the host: a backslash on Windows, a slash
on the other platforms. -/
def PathSeparator (windows : Bool) : Char := if windows then '\\' else '/'

/-! ## `main` -/

/-- The logger `log.New(os.Stdout, "INFO\t", log.Ldate|log.Ltime)`. -/
def infoLog : Logger := ⟨.Stdout, "INFO\t", 3⟩

/-- The logger `log.New(os.Stderr, "ERROR\t", log.Ldate|log.Ltime)`. -/
def errorLog : Logger := ⟨.Stderr, "ERROR\t", 3⟩

/-- The function `main` of `terrafunk.go` from line 64 on, where `flag.Parse()` has
returned: `args` holds the values of the three flags and `flag.Args()`. The whole of
`main`, with lines 58 to 61, is `mainProcess`. -/
def main {τ : Types} (w : World τ) (args : Flags) : Run τ :=
  let extraArgs := args.extraArgs
  if extraArgs.length > 0 then
    ⟨[.PrintDefaults], 1⟩
  else
    let t0 : List (Event τ) :=
      if args.verbose then [.Printf infoLog ("Workdir: \n" ++ args.workdir ++ "\n\n")] else []
    let t1 :=
      if args.verbose then
        t0 ++ [.Printf infoLog ("Expression: \n" ++ args.expression ++ "\n\n")]
      else t0
    let workdir := args.workdir ++ "\\"
    let optionsRet := w.NewTerragruntOptions workdir
    let t2 := t1 ++ [.NewTerragruntOptions workdir optionsRet]
    match optionsRet.2 with
    | some err =>
      ⟨t2 ++ [.Printf errorLog ("Get Options Had The Following Errors: " ++ err)], 1⟩
    | none =>
      let terragruntOptions : TerragruntOptions τ :=
        { optionsRet.1 with Env := parseEnvironmentVariables w.Environ }
      let extensions := w.blankExtensions
      let ctxRet := w.CreateTerragruntEvalContext workdir terragruntOptions extensions
      let terragruntEvalCtx := ctxRet.1
      let t3 := t2 ++ [.CreateTerragruntEvalContext workdir terragruntOptions extensions ctxRet]
      let t4 :=
        match ctxRet.2 with
        | some err =>
          t3 ++ [.Printf errorLog ("Create HCL Eval Context Had The Following Errors: " ++ err)]
        | none => t3
      let parseRet := w.ParseExpression args.expression "" ⟨1, 1, 0⟩
      let expr := parseRet.1
      let parseDiags := parseRet.2
      let t5 := t4 ++ [.ParseExpression args.expression "" ⟨1, 1, 0⟩ parseRet]
      let valueRet := w.Value expr terragruntEvalCtx
      let ctyValue := valueRet.1
      let valDiags := valueRet.2
      let t6 := t5 ++ [.Value expr terragruntEvalCtx valueRet]
      let diagCount := parseDiags.length + valDiags.length
      if diagCount ≠ 0 then
        let t7 := t6 ++ [.Printf errorLog
          ("wrong number of diagnostics " ++ toString diagCount ++ "; want " ++ toString 0 ++ " \n")]
        let t8 := t7 ++ parseDiags.map
          (fun diag => .Printf errorLog ("ParseDiag - " ++ diag.Error ++ " \n"))
        let t9 := t8 ++ valDiags.map
          (fun diag => .Printf errorLog ("ValDiag - " ++ diag.Error ++ " \n"))
        ⟨t9, 1⟩
      else
        let t7 :=
          if args.verbose then
            t6 ++ [.Printf infoLog ("Got Value (Cty): \n" ++ w.GoString ctyValue ++ "\n\n")]
          else t6
        let ctyType := w.CtyTypeOf ctyValue
        let marshalRet := w.Marshal ctyValue ctyType
        let jsonBytes := marshalRet.1
        let t8 := t7 ++ [.Marshal ctyValue ctyType marshalRet]
        let t9 :=
          match marshalRet.2 with
          | some err => t8 ++ [.Printf errorLog ("JSON Marshal Had The Following Errors: " ++ err)]
          | none => t8
        let indentRet := w.Indent jsonBytes "" "  "
        let jsonPretty := indentRet.1
        let t10 := t9 ++ [.Indent jsonBytes "" "  " indentRet]
        let t11 :=
          match indentRet.2 with
          | some err => t10 ++ [.Printf errorLog ("JSON Indent Had The Following Errors: " ++ err)]
          | none => t10
        if args.verbose then
          ⟨t11 ++ [.Printf infoLog ("Got String: \n" ++ jsonPretty)], 0⟩
        else
          ⟨t11 ++ [.Print jsonPretty], 0⟩

/-! ## The command line: `flag.Parse()` and the whole of `main` -/

/-- The values of the three flags as lines 58 to 60 define them, before any argument is
read. -/
def flagDefaults : Flags :=
  ⟨"read_terragrunt_config(\"terragrunt.hcl\")", ".", false, []⟩

/-- Go's `strconv.ParseBool`, with which a boolean flag reads its value. -/
def ParseBool (s : String) : Option Bool :=
  if s ∈ ["1", "t", "T", "TRUE", "true", "True"] then some true
  else if s ∈ ["0", "f", "F", "FALSE", "false", "False"] then some false
  else none

/-- The name and the value of a flag argument without its minuses, as `parseOne` of the
flag package cuts it: at the first `=` that is not the first character. -/
def nameValue : List Char → String × Option String
  | [] => ("", none)
  | c :: cs =>
    match cs.dropWhile (fun x => x ≠ '=') with
    | [] => (⟨c :: cs⟩, none)
    | _ :: value => (⟨c :: cs.takeWhile (fun x => x ≠ '=')⟩, some ⟨value⟩)

/-- The call `flag.Parse()` of line 61 on the arguments `os.Args[1:]`, for the three
flags of lines 58 to 60: the loop of `parseOne` of Go's flag package. An argument that
is shorter than two characters or does not start with `-` ends the flags, and so does
`--`; `-name=value` and `-name value` set a string flag, `-name` and `-name=value` the
boolean flag. -/
def Parse (st : Flags) : List String → ParseResult
  | [] => .parsed { st with extraArgs := [] }
  | s :: rest =>
    match s.data with
    | '-' :: c :: cs =>
      if c = '-' ∧ cs = [] then .parsed { st with extraArgs := rest }
      else
        let name := if c = '-' then cs else c :: cs
        if name.head? = none ∨ name.head? = some '-' ∨ name.head? = some '=' then
          .failed (.badSyntax s)
        else
          let nv := nameValue name
          if nv.1 = "verbose" then
            match nv.2 with
            | some value =>
              match ParseBool value with
              | some b => Parse { st with verbose := b } rest
              | none => .failed (.invalidBoolean value nv.1)
            | none => Parse { st with verbose := true } rest
          else if nv.1 = "expression" ∨ nv.1 = "workdir" then
            match nv.2 with
            | some value =>
              if nv.1 = "expression" then Parse { st with expression := value } rest
              else Parse { st with workdir := value } rest
            | none =>
              match rest with
              | [] => .failed (.needsArgument nv.1)
              | value :: rest' =>
                if nv.1 = "expression" then Parse { st with expression := value } rest'
                else Parse { st with workdir := value } rest'
          else if nv.1 = "help" ∨ nv.1 = "h" then .failed .ErrHelp
          else .failed (.notDefined nv.1)
    | _ => .parsed { st with extraArgs := s :: rest }

/-- The whole function `main` of `terrafunk.go` on the arguments `os.Args[1:]`. The
flag set of `flag.Parse()` handles errors with `flag.ExitOnError`: on `flag.ErrHelp`
it prints the usage and the process exits with status 0 (Go 1.15 and later), on any
other error it prints the error and the usage and the process exits with status 2;
otherwise `main` goes on from line 64. -/
def mainProcess {τ : Types} (w : World τ) (arguments : List String) : Run τ :=
  match Parse flagDefaults arguments with
  | .failed .ErrHelp => ⟨[.Usage], 0⟩
  | .failed err => ⟨[.Failf err, .Usage], 2⟩
  | .parsed args => main w args

/-! ## Concrete collaborators, for runs on concrete inputs -/

/-- Types for concrete runs: options, contexts and extensions carry nothing, an
expression is its source text, a value is a number, a type is a name. -/
def demoTypes : Types := ⟨Unit, Unit, Unit, String, Nat, String⟩

/-- What the collaborators of a concrete run answer: the errors of the options builder,
of the context builder, of the marshaller and of the indenter, and the diagnostics of
the parser and of the evaluator. -/
structure Outcomes where
  optionsErr : Option GoError
  ctxErr : Option GoError
  parseDiags : List Diagnostic
  valDiags : List Diagnostic
  marshalErr : Option GoError
  indentErr : Option GoError

/-- A world with the given outcomes, in which an expression parses to its own text,
every evaluation gives `2`, the JSON of a number is its decimal text, and indenting
changes nothing. -/
def demoWorld (o : Outcomes) : World demoTypes where
  Environ := ["A=1", "BAD", "B==2"]
  NewTerragruntOptions := fun _ => (⟨(), []⟩, o.optionsErr)
  blankExtensions := ()
  CreateTerragruntEvalContext := fun _ _ _ => ((), o.ctxErr)
  ParseExpression := fun src _ _ => (src, o.parseDiags)
  Value := fun _ _ => ((2 : Nat), o.valDiags)
  GoString := fun (v : Nat) => "cty.NumberIntVal(" ++ toString v ++ ")"
  CtyTypeOf := fun _ => "number"
  Marshal := fun (v : Nat) _ => (toString v, o.marshalErr)
  Indent := fun src _ _ => (src, o.indentErr)

/-- The outcomes of a run in which nothing fails. -/
def allFine : Outcomes := ⟨none, none, [], [], none, none⟩

/-- The diagnostic of a parse of the malformed expression `1 +`. -/
def missingExpr : Diagnostic := ⟨.DiagError, "<nosource>: Missing expression"⟩

/-- A diagnostic of warning severity. -/
def deprecated : Diagnostic := ⟨.DiagWarning, "<nosource>: Deprecated"⟩

/-- A diagnostic of the evaluator. -/
def unknownVar : Diagnostic := ⟨.DiagError, "<nosource>: Unknown variable"⟩

/-- Outcomes of a parse with one warning and nothing else wrong. -/
def warnOnly : Outcomes := ⟨none, none, [deprecated], [], none, none⟩

/-- Outcomes of the malformed expression `1 +`: one parse error. -/
def parseFails : Outcomes := ⟨none, none, [missingExpr], [], none, none⟩

/-- Outcomes with two parse diagnostics and one evaluation diagnostic, after a failure
of the context builder. -/
def manyDiags : Outcomes :=
  ⟨none, some "no context", [missingExpr, deprecated], [unknownVar], none, none⟩

/-- Outcomes in which the context builder, the marshaller and the indenter all fail and
there is no diagnostic. -/
def softFailures : Outcomes :=
  ⟨none, some "no context", [], [], some "no JSON", some "no indent"⟩

/-! ## The values and the parts of the trace of a run, by name -/

section Parts

variable {τ : Types}

/-- The working directory `main` passes on. -/
def workdirArg (args : Flags) : String := args.workdir ++ "\\"

/-- The result of the options builder in a run. -/
def optionsRet (w : World τ) (args : Flags) : TerragruntOptions τ × Option GoError :=
  w.NewTerragruntOptions (workdirArg args)

/-- The options after the assignment of `Env`. -/
def optionsArg (w : World τ) (args : Flags) : TerragruntOptions τ :=
  { (optionsRet w args).1 with Env := parseEnvironmentVariables w.Environ }

/-- The result of the evaluation-context builder in a run. -/
def ctxRet (w : World τ) (args : Flags) : τ.EvalContext × Option GoError :=
  w.CreateTerragruntEvalContext (workdirArg args) (optionsArg w args) w.blankExtensions

/-- The result of the parser in a run. -/
def parseRet (w : World τ) (args : Flags) : τ.Expression × List Diagnostic :=
  w.ParseExpression args.expression "" ⟨1, 1, 0⟩

/-- The result of the evaluator in a run. -/
def valueRet (w : World τ) (args : Flags) : τ.CtyValue × List Diagnostic :=
  w.Value (parseRet w args).1 (ctxRet w args).1

/-- The combined diagnostic count of a run. -/
def diagCountOf (w : World τ) (args : Flags) : Nat :=
  (parseRet w args).2.length + (valueRet w args).2.length

/-- The result of the marshaller in a run. -/
def marshalRet (w : World τ) (args : Flags) : String × Option GoError :=
  w.Marshal (valueRet w args).1 (w.CtyTypeOf (valueRet w args).1)

/-- The result of the indenter in a run. -/
def indentRet (w : World τ) (args : Flags) : String × Option GoError :=
  w.Indent (marshalRet w args).1 "" "  "

/-- Records of the informational logger, written only when `verbose` is set. -/
def verboseLog (args : Flags) (msgs : List String) : List (Event τ) :=
  if args.verbose then msgs.map (Event.Printf infoLog) else []

/-- The record of the error logger for an error that is logged and not fatal. -/
def errLog (err : Option GoError) (head : String) : List (Event τ) :=
  match err with
  | some e => [Event.Printf errorLog (head ++ e)]
  | none => []

/-- The trace of a run up to the evaluation of the expression. -/
def traceToValue (w : World τ) (args : Flags) : List (Event τ) :=
  verboseLog args ["Workdir: \n" ++ args.workdir ++ "\n\n",
      "Expression: \n" ++ args.expression ++ "\n\n"] ++
    [Event.NewTerragruntOptions (workdirArg args) (optionsRet w args),
     Event.CreateTerragruntEvalContext (workdirArg args) (optionsArg w args) w.blankExtensions
       (ctxRet w args)] ++
    errLog (ctxRet w args).2 "Create HCL Eval Context Had The Following Errors: " ++
    [Event.ParseExpression args.expression "" ⟨1, 1, 0⟩ (parseRet w args),
     Event.Value (parseRet w args).1 (ctxRet w args).1 (valueRet w args)]

/-- The records of the error logger on a run with diagnostics. -/
def diagLog (w : World τ) (args : Flags) : List (Event τ) :=
  Event.Printf errorLog
      ("wrong number of diagnostics " ++ toString (diagCountOf w args) ++ "; want " ++
        toString 0 ++ " \n") ::
    ((parseRet w args).2.map
        (fun diag => Event.Printf errorLog ("ParseDiag - " ++ diag.Error ++ " \n")) ++
      (valueRet w args).2.map
        (fun diag => Event.Printf errorLog ("ValDiag - " ++ diag.Error ++ " \n")))

/-- The trace of a run after the check of the diagnostics, on a run without any. -/
def traceFromValue (w : World τ) (args : Flags) : List (Event τ) :=
  verboseLog args ["Got Value (Cty): \n" ++ w.GoString (valueRet w args).1 ++ "\n\n"] ++
    [Event.Marshal (valueRet w args).1 (w.CtyTypeOf (valueRet w args).1) (marshalRet w args)] ++
    errLog (marshalRet w args).2 "JSON Marshal Had The Following Errors: " ++
    [Event.Indent (marshalRet w args).1 "" "  " (indentRet w args)] ++
    errLog (indentRet w args).2 "JSON Indent Had The Following Errors: " ++
    [if args.verbose then Event.Printf infoLog ("Got String: \n" ++ (indentRet w args).1)
     else Event.Print (indentRet w args).1]

end Parts

/-! ## Lemmas on the library functions -/

theorem GoMap.get?_set (m : GoMap) (k v k' : String) :
    (m.set k v).get? k' = if k = k' then some v else m.get? k' := by
  induction m with
  | nil => simp [GoMap.set, GoMap.get?]
  | cons p m ih =>
    obtain ⟨a, b⟩ := p
    by_cases hak : a = k
    · subst hak
      by_cases hak' : a = k' <;> simp [GoMap.set, GoMap.get?, hak']
    · by_cases hak' : a = k'
      · subst hak'
        have : ¬ k = a := fun h => hak h.symm
        simp [GoMap.set, GoMap.get?, hak, this]
      · simp [GoMap.set, GoMap.get?, hak, hak', ih]

theorem GoMap.get?_eq_none_iff (m : GoMap) (k : String) :
    m.get? k = none ↔ k ∉ m.keys := by
  induction m with
  | nil => simp [GoMap.get?, GoMap.keys]
  | cons p m ih =>
    obtain ⟨a, b⟩ := p
    by_cases hak : a = k
    · simp [GoMap.get?, GoMap.keys, hak]
    · have : ¬ k = a := fun h => hak h.symm
      simp only [GoMap.keys] at ih
      simp [GoMap.get?, GoMap.keys, hak, this, ih]

theorem GoMap.keys_set (m : GoMap) (k v : String) :
    (m.set k v).keys = if k ∈ m.keys then m.keys else m.keys ++ [k] := by
  induction m with
  | nil => simp [GoMap.set, GoMap.keys]
  | cons p m ih =>
    obtain ⟨a, b⟩ := p
    simp only [GoMap.keys] at ih
    by_cases hak : a = k
    · simp [GoMap.set, GoMap.keys, hak]
    · have : ¬ k = a := fun h => hak h.symm
      by_cases hk : k ∈ List.map Prod.fst m
      · simp [GoMap.set, GoMap.keys, hak, this, hk, ih]
      · simp [GoMap.set, GoMap.keys, hak, this, hk, ih]

theorem GoMap.keys_set_nodup (m : GoMap) (k v : String) (h : m.keys.Nodup) :
    (m.set k v).keys.Nodup := by
  rw [GoMap.keys_set]
  split
  · exact h
  · rename_i hk
    rw [List.nodup_append]
    refine ⟨h, List.nodup_singleton k, ?_⟩
    intro a ha hb
    simp at hb
    subst hb
    exact hk ha

theorem Index_eq (pre post : List Char) (h : '=' ∉ pre) :
    Index ['='] (pre ++ '=' :: post) = some pre.length := by
  induction pre with
  | nil => simp [Index, List.isPrefixOf]
  | cons c cs ih =>
    have hc : ¬ '=' = c := fun e => h (by rw [← e]; exact List.mem_cons_self _ _)
    have hcs : '=' ∉ cs := fun e => h (List.mem_cons_of_mem _ e)
    simp [Index, List.isPrefixOf, hc, ih hcs]

theorem Index_eq_none (s : List Char) (h : '=' ∉ s) : Index ['='] s = none := by
  induction s with
  | nil => simp [Index]
  | cons c cs ih =>
    have hc : ¬ '=' = c := fun e => h (by rw [← e]; exact List.mem_cons_self _ _)
    have hcs : '=' ∉ cs := fun e => h (List.mem_cons_of_mem _ e)
    simp [Index, List.isPrefixOf, hc, ih hcs]

/-- An entry is cut at its first `=`. -/
theorem SplitN_eq (pre post : String) (h : '=' ∉ pre.data) :
    SplitN (pre ++ "=" ++ post) "=" 2 = [pre, post] := by
  have hd : (pre ++ "=" ++ post).data = pre.data ++ '=' :: post.data := by
    simp [String.data_append]
  have hne : ¬ ("=" : String) = "" := by decide
  have hdrop : (pre.data ++ '=' :: post.data).drop (pre.data.length + 1) = post.data := by
    have e : pre.data ++ '=' :: post.data = (pre.data ++ ['=']) ++ post.data := by simp
    rw [e]
    exact List.drop_left' (by simp)
  simp [SplitN, hne, splitLoop, hd, Index_eq pre.data post.data h]
  show String.mk (List.drop (pre.data.length + 1) (pre.data ++ '=' :: post.data)) = post
  rw [hdrop]

/-- An entry without `=` is not cut. -/
theorem SplitN_no_eq (s : String) (h : '=' ∉ s.data) : SplitN s "=" 2 = [s] := by
  have hne : ¬ ("=" : String) = "" := by decide
  simp [SplitN, hne, splitLoop, Index_eq_none s.data h]

/-- Every list with an `=` splits at the first one. -/
theorem exists_first_eq (l : List Char) (h : '=' ∈ l) :
    ∃ pre post, l = pre ++ '=' :: post ∧ '=' ∉ pre := by
  induction l with
  | nil => simp at h
  | cons c cs ih =>
    by_cases hc : c = '='
    · exact ⟨[], cs, by simp [hc], by simp⟩
    · have hcs : '=' ∈ cs := by
        rcases List.mem_cons.mp h with e | e
        · exact absurd e.symm hc
        · exact e
      obtain ⟨pre, post, e, hpre⟩ := ih hcs
      refine ⟨c :: pre, post, by simp [e], ?_⟩
      intro hm
      rcases List.mem_cons.mp hm with e' | e'
      · exact hc e'.symm
      · exact hpre e'

theorem exists_first_eq_string (e : String) (h : '=' ∈ e.data) :
    ∃ pre post : String, e = pre ++ "=" ++ post ∧ '=' ∉ pre.data := by
  obtain ⟨pre, post, he, hpre⟩ := exists_first_eq e.data h
  refine ⟨⟨pre⟩, ⟨post⟩, ?_, hpre⟩
  apply String.ext
  simp [String.data_append, he]

theorem dropWhile_reverse_ne_nil (l : List Char) (h : l.dropWhile isSpace ≠ []) :
    (l.dropWhile isSpace).reverse.dropWhile isSpace ≠ [] := by
  cases hl : l.dropWhile isSpace with
  | nil => exact absurd hl h
  | cons c cs =>
    have hc : isSpace c = false := by
      have := List.head_dropWhile_not isSpace l (by rw [hl]; simp)
      simpa [hl] using this
    intro hnil
    rw [List.dropWhile_eq_nil_iff] at hnil
    have := hnil c (by simp)
    rw [hc] at this
    exact absurd this (by simp)

/-- The trimmed text is empty exactly for texts made of white space only. -/
theorem TrimSpace_eq_empty_iff (s : String) :
    TrimSpace s = "" ↔ ∀ c ∈ s.data, isSpace c = true := by
  constructor
  · intro h
    by_contra hne
    have h1 : s.data.dropWhile isSpace ≠ [] := by
      intro e
      exact hne (List.dropWhile_eq_nil_iff.mp e)
    have h2 := dropWhile_reverse_ne_nil s.data h1
    have h3 : (TrimSpace s).data = [] := by rw [h]
    simp only [TrimSpace, List.reverse_eq_nil_iff] at h3
    exact h2 h3
  · intro h
    have h1 : s.data.dropWhile isSpace = [] := List.dropWhile_eq_nil_iff.mpr h
    simp [TrimSpace, h1]

/-! ## Lemmas on `parseEnvironmentVariables` -/

theorem step_eq (m : GoMap) (pre post : String) (h : '=' ∉ pre.data) :
    parseEnvironmentVariablesStep m (pre ++ "=" ++ post) = m.set (TrimSpace pre) post := by
  simp [parseEnvironmentVariablesStep, SplitN_eq pre post h]

theorem step_no_eq (m : GoMap) (e : String) (h : '=' ∉ e.data) :
    parseEnvironmentVariablesStep m e = m := by
  simp [parseEnvironmentVariablesStep, SplitN_no_eq e h]

theorem step_cases (m : GoMap) (e : String) :
    ('=' ∉ e.data ∧ parseEnvironmentVariablesStep m e = m) ∨
    (∃ pre post : String, e = pre ++ "=" ++ post ∧ '=' ∉ pre.data ∧
      parseEnvironmentVariablesStep m e = m.set (TrimSpace pre) post) := by
  by_cases h : '=' ∈ e.data
  · obtain ⟨pre, post, he, hpre⟩ := exists_first_eq_string e h
    exact Or.inr ⟨pre, post, he, hpre, by rw [he, step_eq m pre post hpre]⟩
  · exact Or.inl ⟨h, step_no_eq m e h⟩

theorem parse_append (xs ys : List String) :
    parseEnvironmentVariables (xs ++ ys) =
      ys.foldl parseEnvironmentVariablesStep (parseEnvironmentVariables xs) := by
  simp [parseEnvironmentVariables, List.foldl_append]

/-- Later entries with other keys leave the value of a key as it is. -/
theorem foldl_get?_of_other_keys (ys : List String) (m : GoMap) (k : String)
    (h : ∀ e ∈ ys, ∀ pre post : String, e = pre ++ "=" ++ post → '=' ∉ pre.data →
      TrimSpace pre ≠ k) :
    (ys.foldl parseEnvironmentVariablesStep m).get? k = m.get? k := by
  induction ys generalizing m with
  | nil => rfl
  | cons y ys ih =>
    rw [List.foldl_cons, ih _ (fun e he => h e (List.mem_cons_of_mem _ he))]
    rcases step_cases m y with ⟨_, hs⟩ | ⟨pre, post, he, hpre, hs⟩
    · rw [hs]
    · rw [hs, GoMap.get?_set]
      have := h y (List.mem_cons_self _ _) pre post he hpre
      simp [this]

theorem foldl_keys_nodup (ys : List String) (m : GoMap) (h : m.keys.Nodup) :
    (ys.foldl parseEnvironmentVariablesStep m).keys.Nodup := by
  induction ys generalizing m with
  | nil => exact h
  | cons y ys ih =>
    rw [List.foldl_cons]
    apply ih
    rcases step_cases m y with ⟨_, hs⟩ | ⟨pre, post, _, _, hs⟩
    · rw [hs]; exact h
    · rw [hs]; exact GoMap.keys_set_nodup m _ _ h

theorem foldl_keys_origin (ys : List String) (m : GoMap) (k : String)
    (hk : k ∈ (ys.foldl parseEnvironmentVariablesStep m).keys) :
    k ∈ m.keys ∨ ∃ e ∈ ys, ∃ pre post : String, e = pre ++ "=" ++ post ∧ '=' ∉ pre.data ∧
      k = TrimSpace pre := by
  induction ys generalizing m with
  | nil => exact Or.inl hk
  | cons y ys ih =>
    rw [List.foldl_cons] at hk
    rcases ih _ hk with h1 | ⟨e, he, pre, post, h2⟩
    · rcases step_cases m y with ⟨_, hs⟩ | ⟨pre, post, he, hpre, hs⟩
      · rw [hs] at h1; exact Or.inl h1
      · rw [hs, GoMap.keys_set] at h1
        split at h1
        · exact Or.inl h1
        · rcases List.mem_append.mp h1 with h3 | h3
          · exact Or.inl h3
          · refine Or.inr ⟨y, List.mem_cons_self _ _, pre, post, he, hpre, ?_⟩
            simpa using h3
    · exact Or.inr ⟨e, List.mem_cons_of_mem _ he, pre, post, h2⟩

theorem foldl_filter (ys : List String) (m : GoMap) :
    ys.foldl parseEnvironmentVariablesStep m =
      (ys.filter (fun e => decide ('=' ∈ e.data))).foldl parseEnvironmentVariablesStep m := by
  induction ys generalizing m with
  | nil => rfl
  | cons y ys ih =>
    by_cases h : '=' ∈ y.data
    · simp only [List.filter_cons, h, decide_True, if_true, List.foldl_cons]
      exact ih _
    · simp only [List.filter_cons, h, decide_False, List.foldl_cons, step_no_eq m y h]
      simpa using ih m


theorem takeWhile_first_eq (pre post : List Char) (h : '=' ∉ pre) :
    (pre ++ '=' :: post).takeWhile (fun c => c ≠ '=') = pre ∧
    (pre ++ '=' :: post).dropWhile (fun c => c ≠ '=') = '=' :: post := by
  induction pre with
  | nil => simp [List.takeWhile, List.dropWhile]
  | cons c cs ih =>
    have hc : ¬ c = '=' := fun e => h (by rw [e]; exact List.mem_cons_self _ _)
    have hcs : '=' ∉ cs := fun e => h (List.mem_cons_of_mem _ e)
    simpa [List.takeWhile, List.dropWhile, hc] using ih hcs

theorem text_of_first_eq (pre post : String) (h : '=' ∉ pre.data) :
    textBeforeFirstEq (pre ++ "=" ++ post) = pre ∧
    textAfterFirstEq (pre ++ "=" ++ post) = post := by
  have hd : (pre ++ "=" ++ post).data = pre.data ++ '=' :: post.data := by
    simp [String.data_append]
  obtain ⟨h1, h2⟩ := takeWhile_first_eq pre.data post.data h
  simp only [textBeforeFirstEq, textAfterFirstEq, hd, h1, h2]
  trivial

/-- An entry with an `=` is its text before the first `=`, the `=`, and the text after. -/
theorem entry_eq_before_after (e : String) (he : '=' ∈ e.data) :
    '=' ∉ (textBeforeFirstEq e).data ∧
    e = textBeforeFirstEq e ++ "=" ++ textAfterFirstEq e := by
  obtain ⟨pre, post, h, hpre⟩ := exists_first_eq_string e he
  obtain ⟨h1, h2⟩ := text_of_first_eq pre post hpre
  rw [h, h1, h2]
  exact ⟨hpre, rfl⟩

theorem step_of_mem (m : GoMap) (e : String) (he : '=' ∈ e.data) :
    parseEnvironmentVariablesStep m e =
      m.set (TrimSpace (textBeforeFirstEq e)) (textAfterFirstEq e) := by
  obtain ⟨hpre, h⟩ := entry_eq_before_after e he
  conv_lhs => rw [h]
  exact step_eq m _ _ hpre

theorem foldl_get?_of_later_keys (ys : List String) (m : GoMap) (k : String)
    (h : ∀ e ∈ ys, '=' ∈ e.data → TrimSpace (textBeforeFirstEq e) ≠ k) :
    (ys.foldl parseEnvironmentVariablesStep m).get? k = m.get? k := by
  apply foldl_get?_of_other_keys
  intro e he pre post hdec hpre
  have hmem : '=' ∈ e.data := by
    rw [hdec]
    simp [String.data_append]
  have := h e he hmem
  rw [hdec, (text_of_first_eq pre post hpre).1] at this
  exact this

theorem get?_parse_middle (xs ys : List String) (e : String) (he : '=' ∈ e.data)
    (hlater : ∀ e' ∈ ys, '=' ∈ e'.data →
      TrimSpace (textBeforeFirstEq e') ≠ TrimSpace (textBeforeFirstEq e)) :
    (parseEnvironmentVariables (xs ++ e :: ys)).get? (TrimSpace (textBeforeFirstEq e)) =
      some (textAfterFirstEq e) := by
  have hsplit : xs ++ e :: ys = (xs ++ [e]) ++ ys := by simp
  rw [hsplit, parse_append, foldl_get?_of_later_keys ys _ _ hlater, parse_append]
  simp only [List.foldl_cons, List.foldl_nil]
  rw [step_of_mem _ e he, GoMap.get?_set]
  simp

theorem parse_keys_nodup (xs : List String) : (parseEnvironmentVariables xs).keys.Nodup :=
  foldl_keys_nodup xs GoMap.empty (by simp [GoMap.empty, GoMap.keys])

/-! ## The four shapes of a run of `main` -/

section MainShapes

variable {τ : Types}

theorem main_usage (w : World τ) (args : Flags) (h : args.extraArgs ≠ []) :
    main w args = ⟨[Event.PrintDefaults], 1⟩ := by
  have h0 : args.extraArgs.length > 0 := List.length_pos.mpr h
  simp [main, h0]

theorem main_options_err (w : World τ) (args : Flags) (err : GoError)
    (h : args.extraArgs = []) (ho : (optionsRet w args).2 = some err) :
    main w args =
      ⟨verboseLog args ["Workdir: \n" ++ args.workdir ++ "\n\n",
          "Expression: \n" ++ args.expression ++ "\n\n"] ++
        [Event.NewTerragruntOptions (workdirArg args) (optionsRet w args),
         Event.Printf errorLog ("Get Options Had The Following Errors: " ++ err)], 1⟩ := by
  simp only [optionsRet, workdirArg] at ho
  unfold main
  simp only [h, List.length_nil, gt_iff_lt, lt_self_iff_false, if_false, ho]
  cases hv : args.verbose <;> simp [verboseLog, hv, optionsRet, workdirArg]

theorem main_diags (w : World τ) (args : Flags)
    (h : args.extraArgs = []) (ho : (optionsRet w args).2 = none)
    (hn : diagCountOf w args ≠ 0) :
    main w args = ⟨traceToValue w args ++ diagLog w args, 1⟩ := by
  simp only [optionsRet, workdirArg] at ho
  simp only [diagCountOf, valueRet, parseRet, ctxRet, optionsArg, optionsRet, workdirArg] at hn
  unfold main
  simp only [h, List.length_nil, gt_iff_lt, lt_self_iff_false, if_false, ho, hn, ne_eq,
    not_false_eq_true, if_true]
  cases hv : args.verbose <;>
  cases hc : (w.CreateTerragruntEvalContext (args.workdir ++ "\\")
      { rest := (w.NewTerragruntOptions (args.workdir ++ "\\")).1.rest,
        Env := parseEnvironmentVariables w.Environ } w.blankExtensions).2 <;>
  simp [traceToValue, diagLog, verboseLog, errLog, hv, hc, diagCountOf, valueRet, parseRet,
    ctxRet, optionsArg, optionsRet, workdirArg]

theorem main_ok (w : World τ) (args : Flags)
    (h : args.extraArgs = []) (ho : (optionsRet w args).2 = none)
    (hz : diagCountOf w args = 0) :
    main w args = ⟨traceToValue w args ++ traceFromValue w args, 0⟩ := by
  simp only [optionsRet, workdirArg] at ho
  simp only [diagCountOf, valueRet, parseRet, ctxRet, optionsArg, optionsRet, workdirArg] at hz
  unfold main
  simp only [h, List.length_nil, gt_iff_lt, lt_self_iff_false, if_false, ho, hz, ne_eq,
    not_true_eq_false]
  cases hv : args.verbose <;>
  cases hc : (w.CreateTerragruntEvalContext (args.workdir ++ "\\")
      { rest := (w.NewTerragruntOptions (args.workdir ++ "\\")).1.rest,
        Env := parseEnvironmentVariables w.Environ } w.blankExtensions).2 <;>
  cases hm : (w.Marshal
      (w.Value (w.ParseExpression args.expression "" ⟨1, 1, 0⟩).1
        (w.CreateTerragruntEvalContext (args.workdir ++ "\\")
          { rest := (w.NewTerragruntOptions (args.workdir ++ "\\")).1.rest,
            Env := parseEnvironmentVariables w.Environ } w.blankExtensions).1).1
      (w.CtyTypeOf (w.Value (w.ParseExpression args.expression "" ⟨1, 1, 0⟩).1
        (w.CreateTerragruntEvalContext (args.workdir ++ "\\")
          { rest := (w.NewTerragruntOptions (args.workdir ++ "\\")).1.rest,
            Env := parseEnvironmentVariables w.Environ } w.blankExtensions).1).1)).2 <;>
  cases hi : (w.Indent (w.Marshal
      (w.Value (w.ParseExpression args.expression "" ⟨1, 1, 0⟩).1
        (w.CreateTerragruntEvalContext (args.workdir ++ "\\")
          { rest := (w.NewTerragruntOptions (args.workdir ++ "\\")).1.rest,
            Env := parseEnvironmentVariables w.Environ } w.blankExtensions).1).1
      (w.CtyTypeOf (w.Value (w.ParseExpression args.expression "" ⟨1, 1, 0⟩).1
        (w.CreateTerragruntEvalContext (args.workdir ++ "\\")
          { rest := (w.NewTerragruntOptions (args.workdir ++ "\\")).1.rest,
            Env := parseEnvironmentVariables w.Environ } w.blankExtensions).1).1)).1 "" "  ").2 <;>
  simp [traceToValue, traceFromValue, verboseLog, errLog, hv, hc, hm, hi, marshalRet, indentRet,
    valueRet, parseRet, ctxRet, optionsArg, optionsRet, workdirArg]

theorem mem_verboseLog (args : Flags) (msgs : List String) (ev : Event τ) :
    ev ∈ verboseLog args msgs ↔
      args.verbose = true ∧ ∃ m ∈ msgs, ev = Event.Printf infoLog m := by
  unfold verboseLog
  cases args.verbose <;> simp [eq_comm]

theorem mem_errLog (err : Option GoError) (head : String) (ev : Event τ) :
    ev ∈ errLog err head ↔ ∃ e, err = some e ∧ ev = Event.Printf errorLog (head ++ e) := by
  cases err <;> simp [errLog]

theorem stdout_verboseLog (args : Flags) (msgs : List String) :
    (verboseLog args msgs : List (Event τ)).filterMap (written .Stdout) =
      if args.verbose then msgs.map (Written.logLine "INFO\t") else [] := by
  unfold verboseLog
  cases args.verbose
  · simp
  · have hf : (written .Stdout ∘ (Event.Printf infoLog : String → Event τ)) =
        some ∘ Written.logLine "INFO\t" := by
      funext m
      simp [written, infoLog]
    simp only [if_true, List.filterMap_map, hf, List.filterMap_eq_map]

theorem stderr_verboseLog (args : Flags) (msgs : List String) :
    (verboseLog args msgs : List (Event τ)).filterMap (written .Stderr) = [] := by
  unfold verboseLog
  cases args.verbose
  · simp
  · have hf : (written .Stderr ∘ (Event.Printf infoLog : String → Event τ)) =
        fun _ => none := by
      funext m
      simp [written, infoLog]
    simp only [if_true, List.filterMap_map, hf]
    induction msgs with
    | nil => rfl
    | cons m ms ih => simp

theorem stdout_errLog (err : Option GoError) (head : String) :
    (errLog err head : List (Event τ)).filterMap (written .Stdout) = [] := by
  cases err <;> simp [errLog, written, errorLog]

theorem stderr_errLog (err : Option GoError) (head : String) :
    (errLog err head : List (Event τ)).filterMap (written .Stderr) =
      match err with
      | some e => [Written.logLine "ERROR\t" (head ++ e)]
      | none => [] := by
  cases err <;> simp [errLog, written, errorLog]

theorem stdout_map_errorLog {α : Type} (l : List α) (f : α → String) :
    (l.map (fun a => (Event.Printf errorLog (f a) : Event τ))).filterMap (written .Stdout) =
      [] := by
  have hf : (written .Stdout ∘ fun a => (Event.Printf errorLog (f a) : Event τ)) =
      fun _ => none := by
    funext a
    simp [written, errorLog]
  simp only [List.filterMap_map, hf]
  induction l with
  | nil => rfl
  | cons a l ih => simp

theorem stderr_map_errorLog {α : Type} (l : List α) (f : α → String) :
    (l.map (fun a => (Event.Printf errorLog (f a) : Event τ))).filterMap (written .Stderr) =
      l.map (fun a => Written.logLine "ERROR\t" (f a)) := by
  have hf : (written .Stderr ∘ fun a => (Event.Printf errorLog (f a) : Event τ)) =
      some ∘ fun a => Written.logLine "ERROR\t" (f a) := by
    funext a
    simp [written, errorLog]
  simp only [List.filterMap_map, hf, List.filterMap_eq_map]

/-- Every run of `main` has one of four shapes: usage error, options error, diagnostics,
or output. -/
theorem main_cases (w : World τ) (args : Flags) :
    (args.extraArgs ≠ [] ∧ main w args = ⟨[Event.PrintDefaults], 1⟩) ∨
    (∃ err, args.extraArgs = [] ∧ (optionsRet w args).2 = some err ∧
      main w args =
        ⟨verboseLog args ["Workdir: \n" ++ args.workdir ++ "\n\n",
            "Expression: \n" ++ args.expression ++ "\n\n"] ++
          [Event.NewTerragruntOptions (workdirArg args) (optionsRet w args),
           Event.Printf errorLog ("Get Options Had The Following Errors: " ++ err)], 1⟩) ∨
    (args.extraArgs = [] ∧ (optionsRet w args).2 = none ∧ diagCountOf w args ≠ 0 ∧
      main w args = ⟨traceToValue w args ++ diagLog w args, 1⟩) ∨
    (args.extraArgs = [] ∧ (optionsRet w args).2 = none ∧ diagCountOf w args = 0 ∧
      main w args = ⟨traceToValue w args ++ traceFromValue w args, 0⟩) := by
  by_cases h : args.extraArgs = []
  · cases ho : (optionsRet w args).2 with
    | some err => exact Or.inr (Or.inl ⟨err, h, rfl, main_options_err w args err h ho⟩)
    | none =>
      by_cases hn : diagCountOf w args = 0
      · exact Or.inr (Or.inr (Or.inr ⟨h, rfl, hn, main_ok w args h ho hn⟩))
      · exact Or.inr (Or.inr (Or.inl ⟨h, rfl, hn, main_diags w args h ho hn⟩))
  · exact Or.inl ⟨h, main_usage w args h⟩

end MainShapes


/-! ## The claims on `parseEnvironmentVariables` -/

/-- C1: `parseEnvironmentVariables` cuts an entry at its first `=` only. For every list
of entries and every entry `e` of it that contains an `=` (so that `e` is the text
before its first `=`, the `=`, and the text after it), if no later entry with an `=` has
the same trimmed key, then the resulting map holds under the trimmed text before the
first `=` exactly the text after it, untrimmed and with any further `=`. -/
theorem parseEnvironmentVariables_first_eq_only (xs ys : List String) (e : String)
    (he : '=' ∈ e.data)
    (hlater : ∀ e' ∈ ys, '=' ∈ e'.data →
      TrimSpace (textBeforeFirstEq e') ≠ TrimSpace (textBeforeFirstEq e)) :
    '=' ∉ (textBeforeFirstEq e).data ∧
    e = textBeforeFirstEq e ++ "=" ++ textAfterFirstEq e ∧
    (parseEnvironmentVariables (xs ++ e :: ys)).get? (TrimSpace (textBeforeFirstEq e)) =
      some (textAfterFirstEq e) :=
  ⟨(entry_eq_before_after e he).1, (entry_eq_before_after e he).2,
    get?_parse_middle xs ys e he hlater⟩

/-- C1 on the entries `["A=1", "BAD", "B==2"]`: the entry `"A=1"`, followed by two
entries with other keys, gives `"1"` under `"A"`, and the last entry `"B==2"` gives
`"=2"` under `"B"`. -/
theorem parseEnvironmentVariables_first_eq_only_witness :
    '=' ∈ "A=1".data ∧
    (∀ e' ∈ ["BAD", "B==2"], '=' ∈ e'.data →
      TrimSpace (textBeforeFirstEq e') ≠ TrimSpace (textBeforeFirstEq "A=1")) ∧
    (parseEnvironmentVariables ["A=1", "BAD", "B==2"]).get? "A" = some "1" ∧
    (parseEnvironmentVariables ["A=1", "BAD", "B==2"]).get? "B" = some "=2" :=
  ⟨by decide, by decide,
    (parseEnvironmentVariables_first_eq_only [] ["BAD", "B==2"] "A=1" (by decide)
      (by decide)).2.2,
    (parseEnvironmentVariables_first_eq_only ["A=1", "BAD"] [] "B==2" (by decide)
      (by decide)).2.2⟩

/-- C2: entries without `=` are dropped. For every list of entries the resulting map is
the map of the list without its `=`-free entries; a list in which no entry contains `=`
gives the empty map (a value, never an error); and every key of the result is the trimmed
text before the first `=` of an entry that contains `=`. -/
theorem parseEnvironmentVariables_drops_entries_without_eq (xs : List String) :
    parseEnvironmentVariables xs =
      parseEnvironmentVariables (xs.filter (fun e => decide ('=' ∈ e.data))) ∧
    ((∀ e ∈ xs, '=' ∉ e.data) → parseEnvironmentVariables xs = GoMap.empty) ∧
    (∀ k ∈ (parseEnvironmentVariables xs).keys,
      ∃ e ∈ xs, '=' ∈ e.data ∧ k = TrimSpace (textBeforeFirstEq e)) := by
  refine ⟨foldl_filter xs GoMap.empty, ?_, ?_⟩
  · intro h
    have hf : xs.filter (fun e => decide ('=' ∈ e.data)) = [] := by
      rw [List.filter_eq_nil_iff]
      intro e he
      simpa using h e he
    have := foldl_filter xs GoMap.empty
    rw [hf] at this
    exact this
  · intro k hk
    rcases foldl_keys_origin xs GoMap.empty k hk with h | ⟨e, he, pre, post, hdec, hpre, hkey⟩
    · simp [GoMap.empty, GoMap.keys] at h
    · refine ⟨e, he, ?_, ?_⟩
      · rw [hdec]
        simp [String.data_append]
      · rw [hkey, hdec, (text_of_first_eq pre post hpre).1]

/-- C2 on `["A=1", "BAD", "B==2"]`: the map is the one of `["A=1", "B==2"]`, with the
keys `A` and `B` only. -/
theorem parseEnvironmentVariables_drops_entries_without_eq_witness :
    parseEnvironmentVariables ["A=1", "BAD", "B==2"] =
      parseEnvironmentVariables ["A=1", "B==2"] ∧
    parseEnvironmentVariables ["A=1", "BAD", "B==2"] = [("A", "1"), ("B", "=2")] ∧
    parseEnvironmentVariables ["BAD", "", "WORSE"] = GoMap.empty :=
  ⟨(parseEnvironmentVariables_drops_entries_without_eq ["A=1", "BAD", "B==2"]).1, by decide,
    (parseEnvironmentVariables_drops_entries_without_eq ["BAD", "", "WORSE"]).2.1 (by decide)⟩

/-- C3: the keys of the map are unique and the last write wins. For every list `xs` and
every entry `e` with an `=`, the map of `xs` followed by `e` holds the value of `e` under
the trimmed key of `e` (whatever `xs` held there, also under a name equal only after
trimming), agrees with the map of `xs` on every other key, and has no key twice. -/
theorem parseEnvironmentVariables_last_write_wins (xs : List String) (e : String)
    (he : '=' ∈ e.data) :
    (parseEnvironmentVariables (xs ++ [e])).get? (TrimSpace (textBeforeFirstEq e)) =
      some (textAfterFirstEq e) ∧
    (∀ k, k ≠ TrimSpace (textBeforeFirstEq e) →
      (parseEnvironmentVariables (xs ++ [e])).get? k = (parseEnvironmentVariables xs).get? k) ∧
    (parseEnvironmentVariables (xs ++ [e])).keys.Nodup := by
  refine ⟨get?_parse_middle xs [] e he (by simp), ?_, parse_keys_nodup _⟩
  intro k hk
  rw [parse_append]
  simp only [List.foldl_cons, List.foldl_nil]
  rw [step_of_mem _ e he, GoMap.get?_set]
  have : ¬ TrimSpace (textBeforeFirstEq e) = k := fun h => hk h.symm
  simp [this]

/-- C3 on `[" A =1", "B=2"]` followed by `"A=3"`: the key `"A"`, first written under
the name `" A "`, now holds `"3"`, and `"B"` still holds `"2"`. -/
theorem parseEnvironmentVariables_last_write_wins_witness :
    '=' ∈ "A=3".data ∧
    (parseEnvironmentVariables [" A =1", "B=2"]).get? "A" = some "1" ∧
    (parseEnvironmentVariables [" A =1", "B=2", "A=3"]).get? "A" = some "3" ∧
    (parseEnvironmentVariables [" A =1", "B=2", "A=3"]).get? "B" = some "2" ∧
    (parseEnvironmentVariables [" A =1", "B=2", "A=3"]).keys = ["A", "B"] :=
  ⟨by decide, by decide,
    (parseEnvironmentVariables_last_write_wins [" A =1", "B=2"] "A=3" (by decide)).1,
    by decide, by decide⟩

/-- C10: an entry whose text before the first `=` is empty or white space only is not
dropped. For every such entry that is the last of its kind in the list, the resulting map
has the empty string as a key, and holds under it everything after that first `=`. -/
theorem parseEnvironmentVariables_blank_key (xs ys : List String) (e : String)
    (he : '=' ∈ e.data)
    (hblank : ∀ c ∈ (textBeforeFirstEq e).data, isSpace c = true)
    (hlast : ∀ e' ∈ ys, '=' ∈ e'.data →
      ¬ ∀ c ∈ (textBeforeFirstEq e').data, isSpace c = true) :
    "" ∈ (parseEnvironmentVariables (xs ++ e :: ys)).keys ∧
    (parseEnvironmentVariables (xs ++ e :: ys)).get? "" = some (textAfterFirstEq e) := by
  have hkey : TrimSpace (textBeforeFirstEq e) = "" := (TrimSpace_eq_empty_iff _).mpr hblank
  have hget : (parseEnvironmentVariables (xs ++ e :: ys)).get? "" =
      some (textAfterFirstEq e) := by
    have := get?_parse_middle xs ys e he (by
      intro e' he' hmem
      rw [hkey]
      exact fun h => hlast e' he' hmem ((TrimSpace_eq_empty_iff _).mp h))
    rw [hkey] at this
    exact this
  refine ⟨?_, hget⟩
  by_contra hno
  rw [← GoMap.get?_eq_none_iff, hget] at hno
  exact absurd hno (by simp)

/-- C10 on `["=x", "A=1", " \t =y=z", "B", "C=1"]`: the entry `" \t =y=z"` is the last
one with a blank key, and the map holds `"y=z"` under the empty string. -/
theorem parseEnvironmentVariables_blank_key_witness :
    '=' ∈ " \t =y=z".data ∧
    (∀ c ∈ (textBeforeFirstEq " \t =y=z").data, isSpace c = true) ∧
    (∀ e' ∈ ["B", "C=1"], '=' ∈ e'.data →
      ¬ ∀ c ∈ (textBeforeFirstEq e').data, isSpace c = true) ∧
    "" ∈ (parseEnvironmentVariables ["=x", "A=1", " \t =y=z", "B", "C=1"]).keys ∧
    (parseEnvironmentVariables ["=x", "A=1", " \t =y=z", "B", "C=1"]).get? "" = some "y=z" :=
  ⟨by decide, by decide, by decide,
    parseEnvironmentVariables_blank_key ["=x", "A=1"] ["B", "C=1"] " \t =y=z" (by decide)
      (by decide) (by decide)⟩

/-! ## The claims on `main` -/

/-- C4 (as amended): the pipeline is fail-closed on diagnostics. For every run that
parsed and evaluated, when the parse diagnostics plus the evaluation diagnostics are not
zero in number (whatever their severity), the value is never marshalled, `fmt.Printf` is
never called, standard output holds nothing but the two informational records of a
verbose run (working directory and expression), and the exit status is 1; when the
number is zero the evaluated value is marshalled. -/
theorem main_fail_closed_on_diagnostics {τ : Types} (w : World τ) (args : Flags)
    (src filename : String) (start : Pos) (pret : τ.Expression × List Diagnostic)
    (expr : τ.Expression) (ctx : τ.EvalContext) (vret : τ.CtyValue × List Diagnostic)
    (hp : Event.ParseExpression src filename start pret ∈ (main w args).trace)
    (hv : Event.Value expr ctx vret ∈ (main w args).trace) :
    (pret.2.length + vret.2.length ≠ 0 →
      (∀ val ty ret, Event.Marshal val ty ret ∉ (main w args).trace) ∧
      (∀ text, Event.Print text ∉ (main w args).trace) ∧
      (main w args).stdout =
        (if args.verbose then
          [Written.logLine "INFO\t" ("Workdir: \n" ++ args.workdir ++ "\n\n"),
           Written.logLine "INFO\t" ("Expression: \n" ++ args.expression ++ "\n\n")]
         else []) ∧
      (main w args).exit = 1) ∧
    (pret.2.length + vret.2.length = 0 →
      ∃ ret, Event.Marshal vret.1 (w.CtyTypeOf vret.1) ret ∈ (main w args).trace) := by
  rcases main_cases w args with ⟨_, e⟩ | ⟨err, _, _, e⟩ | ⟨_, _, hn, e⟩ | ⟨_, _, hz, e⟩
  · simp [e] at hp
  · simp [e, mem_verboseLog] at hp
  · simp only [e, List.mem_append] at hp hv
    simp [traceToValue, diagLog, mem_verboseLog, mem_errLog] at hp hv
    obtain ⟨-, -, -, rfl⟩ := hp
    obtain ⟨-, -, rfl⟩ := hv
    refine ⟨fun _ => ?_, fun h0 => absurd h0 hn⟩
    simp [e, Run.stdout, traceToValue, diagLog, mem_verboseLog, mem_errLog,
      List.filterMap_append, stdout_verboseLog, stdout_errLog, stdout_map_errorLog, written,
      errorLog]
  · simp only [e, List.mem_append] at hp hv
    cases hverb : args.verbose <;>
    simp [traceToValue, traceFromValue, mem_verboseLog, mem_errLog, hverb] at hp hv <;>
    obtain ⟨-, -, -, rfl⟩ := hp <;>
    obtain ⟨-, -, rfl⟩ := hv <;>
    refine ⟨fun h0 => absurd hz h0, fun _ => ?_⟩ <;>
    simp [e, traceToValue, traceFromValue, mem_verboseLog, mem_errLog, hverb, marshalRet]


/-- C4, the claim as stated fails: in a verbose run whose parse gives one warning, the
diagnostic count is 1 and standard output has received two records. -/
theorem main_fail_closed_counterexample :
    Event.ParseExpression "x" "" ⟨1, 1, 0⟩ ("x", [deprecated]) ∈
      (main (demoWorld warnOnly) ⟨"x", ".", true, []⟩).trace ∧
    Event.Value "x" () ((2 : Nat), []) ∈
      (main (demoWorld warnOnly) ⟨"x", ".", true, []⟩).trace ∧
    [deprecated].length + ([] : List Diagnostic).length ≠ 0 ∧
    (main (demoWorld warnOnly) ⟨"x", ".", true, []⟩).stdout =
      [Written.logLine "INFO\t" "Workdir: \n.\n\n",
       Written.logLine "INFO\t" "Expression: \nx\n\n"] ∧
    (main (demoWorld warnOnly) ⟨"x", ".", true, []⟩).stdout ≠ [] :=
  ⟨by simp [main, demoWorld, warnOnly], by simp [main, demoWorld, warnOnly], by decide,
    by decide, by decide⟩

/-- C4 (as amended) on the malformed expression `1 +`, not verbose: standard output
stays empty and the exit status is 1. -/
theorem main_fail_closed_on_diagnostics_witness :
    Event.ParseExpression "1 +" "" ⟨1, 1, 0⟩ ("1 +", [missingExpr]) ∈
      (main (demoWorld parseFails) ⟨"1 +", ".", false, []⟩).trace ∧
    Event.Value "1 +" () ((2 : Nat), []) ∈
      (main (demoWorld parseFails) ⟨"1 +", ".", false, []⟩).trace ∧
    (main (demoWorld parseFails) ⟨"1 +", ".", false, []⟩).stdout = [] ∧
    (main (demoWorld parseFails) ⟨"1 +", ".", false, []⟩).exit = 1 :=
  have hp : Event.ParseExpression "1 +" "" ⟨1, 1, 0⟩ ("1 +", [missingExpr]) ∈
      (main (demoWorld parseFails) ⟨"1 +", ".", false, []⟩).trace := by
    simp [main, demoWorld, parseFails]
  have hv : Event.Value "1 +" () ((2 : Nat), []) ∈
      (main (demoWorld parseFails) ⟨"1 +", ".", false, []⟩).trace := by
    simp [main, demoWorld, parseFails]
  have h := (main_fail_closed_on_diagnostics (demoWorld parseFails) ⟨"1 +", ".", false, []⟩
    "1 +" "" ⟨1, 1, 0⟩ ("1 +", [missingExpr]) "1 +" () ((2 : Nat), []) hp hv).1 (by decide)
  ⟨hp, hv, h.2.2.1, h.2.2.2⟩

/-- C5: when `verbose` is false, for every run that reaches the reporter (it parsed and
evaluated, so there was no positional argument and the options were built, and the
diagnostic count is zero), the evaluated value is marshalled, the marshalled bytes are
re-indented with an empty line header and a 2-space step, standard output receives
exactly the resulting bytes and nothing else, and every logger record of the run is one
of the error logger, which writes to the error stream. -/
theorem main_stdout_is_pretty_json {τ : Types} (w : World τ) (args : Flags)
    (src filename : String) (start : Pos) (pret : τ.Expression × List Diagnostic)
    (expr : τ.Expression) (ctx : τ.EvalContext) (vret : τ.CtyValue × List Diagnostic)
    (hverb : args.verbose = false)
    (hp : Event.ParseExpression src filename start pret ∈ (main w args).trace)
    (hv : Event.Value expr ctx vret ∈ (main w args).trace)
    (hz : pret.2.length + vret.2.length = 0) :
    Event.Marshal vret.1 (w.CtyTypeOf vret.1) (w.Marshal vret.1 (w.CtyTypeOf vret.1)) ∈
      (main w args).trace ∧
    Event.Indent (w.Marshal vret.1 (w.CtyTypeOf vret.1)).1 "" "  "
        (w.Indent (w.Marshal vret.1 (w.CtyTypeOf vret.1)).1 "" "  ") ∈ (main w args).trace ∧
    (main w args).stdout =
      [Written.text (w.Indent (w.Marshal vret.1 (w.CtyTypeOf vret.1)).1 "" "  ").1] ∧
    (∀ l msg, Event.Printf l msg ∈ (main w args).trace → l = errorLog) ∧
    errorLog.out = Stream.Stderr := by
  rcases main_cases w args with ⟨_, e⟩ | ⟨err, _, _, e⟩ | ⟨_, _, hn, e⟩ | ⟨_, _, _, e⟩
  · simp [e] at hp
  · simp [e, mem_verboseLog] at hp
  · simp only [e, List.mem_append] at hp hv
    simp [traceToValue, diagLog, mem_verboseLog, mem_errLog] at hp hv
    obtain ⟨-, -, -, rfl⟩ := hp
    obtain ⟨-, -, rfl⟩ := hv
    exact absurd hz hn
  · simp only [e, List.mem_append] at hp hv
    simp [traceToValue, traceFromValue, mem_verboseLog, mem_errLog, hverb] at hp hv
    obtain ⟨-, -, -, rfl⟩ := hp
    obtain ⟨-, -, rfl⟩ := hv
    refine ⟨?_, ?_, ?_, ?_, rfl⟩
    · simp [e, traceToValue, traceFromValue, mem_verboseLog, mem_errLog, hverb, marshalRet]
    · simp [e, traceToValue, traceFromValue, mem_verboseLog, mem_errLog, hverb, marshalRet,
        indentRet]
    · simp [e, Run.stdout, traceToValue, traceFromValue, List.filterMap_append,
        stdout_verboseLog, stdout_errLog, written, hverb, marshalRet, indentRet]
    · intro l msg hl
      simp only [e, List.mem_append] at hl
      simp [traceToValue, traceFromValue, mem_verboseLog, mem_errLog, hverb] at hl
      rcases hl with ⟨_, _, h, _⟩ | ⟨_, _, h, _⟩ | ⟨_, _, h, _⟩ <;> exact h

/-- C5 on the expression `1 + 1`: standard output is the text `2` and nothing else. -/
theorem main_stdout_is_pretty_json_witness :
    Event.ParseExpression "1 + 1" "" ⟨1, 1, 0⟩ ("1 + 1", []) ∈
      (main (demoWorld allFine) ⟨"1 + 1", ".", false, []⟩).trace ∧
    Event.Value "1 + 1" () ((2 : Nat), []) ∈
      (main (demoWorld allFine) ⟨"1 + 1", ".", false, []⟩).trace ∧
    (main (demoWorld allFine) ⟨"1 + 1", ".", false, []⟩).stdout = [Written.text "2"] :=
  have hp : Event.ParseExpression "1 + 1" "" ⟨1, 1, 0⟩ ("1 + 1", []) ∈
      (main (demoWorld allFine) ⟨"1 + 1", ".", false, []⟩).trace := by
    simp [main, demoWorld, allFine]
  have hv : Event.Value "1 + 1" () ((2 : Nat), []) ∈
      (main (demoWorld allFine) ⟨"1 + 1", ".", false, []⟩).trace := by
    simp [main, demoWorld, allFine]
  ⟨hp, hv, (main_stdout_is_pretty_json (demoWorld allFine) ⟨"1 + 1", ".", false, []⟩
    "1 + 1" "" ⟨1, 1, 0⟩ ("1 + 1", []) "1 + 1" () ((2 : Nat), []) rfl hp hv rfl).2.2.1⟩


/-- C7, the claim as stated fails: on the malformed expression `1 +` the parser returns a
diagnostic, and the evaluator is invoked all the same. -/
theorem main_evaluates_after_parse_counterexample :
    Event.ParseExpression "1 +" "" ⟨1, 1, 0⟩ ("1 +", [missingExpr]) ∈
      (main (demoWorld parseFails) ⟨"1 +", ".", false, []⟩).trace ∧
    [missingExpr] ≠ [] ∧
    Event.Value "1 +" () ((2 : Nat), []) ∈
      (main (demoWorld parseFails) ⟨"1 +", ".", false, []⟩).trace :=
  ⟨by simp [main, demoWorld, parseFails], by decide, by simp [main, demoWorld, parseFails]⟩

/-- C7 (as amended): `main` evaluates the returned AST on every run that parses, whatever
the parse diagnostics: the call of the evaluator follows the call of the parser at
once, on the expression the parser returned and the context the evaluation-context
builder returned. The diagnostics are checked before the evaluated value is used: when
the parse diagnostics are not empty, all that follows the evaluation is the record of
the count and one record per diagnostic on the error logger, so the value is never
marshalled, indented or written, standard output holds nothing but the two informational
records of a verbose run (working directory and expression), and the exit status is 1. -/
theorem main_checks_diagnostics_after_evaluation {τ : Types} (w : World τ) (args : Flags)
    (src filename : String) (start : Pos) (pret : τ.Expression × List Diagnostic)
    (d : String) (opts : TerragruntOptions τ) (ext : τ.Extensions)
    (cret : τ.EvalContext × Option GoError)
    (hc : Event.CreateTerragruntEvalContext d opts ext cret ∈ (main w args).trace)
    (hp : Event.ParseExpression src filename start pret ∈ (main w args).trace) :
    (∃ before after,
      (main w args).trace =
        before ++
          [Event.ParseExpression src filename start pret,
           Event.Value pret.1 cret.1 (w.Value pret.1 cret.1)] ++ after ∧
      (pret.2 ≠ [] →
        after =
          Event.Printf errorLog
              ("wrong number of diagnostics " ++
                toString (pret.2.length + (w.Value pret.1 cret.1).2.length) ++ "; want " ++
                toString 0 ++ " \n") ::
            (pret.2.map
                (fun diag => Event.Printf errorLog ("ParseDiag - " ++ diag.Error ++ " \n")) ++
              (w.Value pret.1 cret.1).2.map
                (fun diag => Event.Printf errorLog ("ValDiag - " ++ diag.Error ++ " \n"))))) ∧
    (pret.2 ≠ [] →
      (∀ val ty ret, Event.Marshal val ty ret ∉ (main w args).trace) ∧
      (∀ text pfx indent ret, Event.Indent text pfx indent ret ∉ (main w args).trace) ∧
      (∀ text, Event.Print text ∉ (main w args).trace) ∧
      (main w args).stdout =
        (if args.verbose then
          [Written.logLine "INFO\t" ("Workdir: \n" ++ args.workdir ++ "\n\n"),
           Written.logLine "INFO\t" ("Expression: \n" ++ args.expression ++ "\n\n")]
         else []) ∧
      (main w args).exit = 1) := by
  rcases main_cases w args with ⟨_, e⟩ | ⟨err, _, _, e⟩ | ⟨_, _, hn, e⟩ | ⟨_, _, hz, e⟩
  · simp [e] at hp
  · simp [e, mem_verboseLog] at hp
  · simp only [e, List.mem_append] at hp hc
    simp [traceToValue, diagLog, mem_verboseLog, mem_errLog] at hp hc
    obtain ⟨rfl, rfl, rfl, rfl⟩ := hp
    obtain ⟨-, -, -, rfl⟩ := hc
    refine ⟨⟨verboseLog args ["Workdir: \n" ++ args.workdir ++ "\n\n",
          "Expression: \n" ++ args.expression ++ "\n\n"] ++
        [Event.NewTerragruntOptions (workdirArg args) (optionsRet w args),
         Event.CreateTerragruntEvalContext (workdirArg args) (optionsArg w args)
           w.blankExtensions (ctxRet w args)] ++
        errLog (ctxRet w args).2 "Create HCL Eval Context Had The Following Errors: ",
        diagLog w args, ?_, fun _ => rfl⟩, fun _ => ?_⟩
    · simp [e, traceToValue, valueRet]
    · simp [e, Run.stdout, traceToValue, diagLog, mem_verboseLog, mem_errLog,
        List.filterMap_append, stdout_verboseLog, stdout_errLog, stdout_map_errorLog, written,
        errorLog]
  · have hpe : pret = parseRet w args := by
      cases hverb : args.verbose <;>
      simp only [e, List.mem_append] at hp <;>
      simp [traceToValue, traceFromValue, mem_verboseLog, mem_errLog, hverb] at hp <;>
      exact hp.2.2.2
    have hce : cret = ctxRet w args := by
      cases hverb : args.verbose <;>
      simp only [e, List.mem_append] at hc <;>
      simp [traceToValue, traceFromValue, mem_verboseLog, mem_errLog, hverb] at hc <;>
      exact hc.2.2.2
    have hse : src = args.expression ∧ filename = "" ∧ start = ⟨1, 1, 0⟩ := by
      cases hverb : args.verbose <;>
      simp only [e, List.mem_append] at hp <;>
      simp [traceToValue, traceFromValue, mem_verboseLog, mem_errLog, hverb] at hp <;>
      exact ⟨hp.1, hp.2.1, hp.2.2.1⟩
    obtain ⟨rfl, rfl, rfl⟩ := hse
    subst hpe hce
    have hnil : (parseRet w args).2 = [] := by
      have h0 : (parseRet w args).2.length = 0 := by
        unfold diagCountOf at hz
        omega
      exact List.length_eq_zero.mp h0
    refine ⟨⟨verboseLog args ["Workdir: \n" ++ args.workdir ++ "\n\n",
          "Expression: \n" ++ args.expression ++ "\n\n"] ++
        [Event.NewTerragruntOptions (workdirArg args) (optionsRet w args),
         Event.CreateTerragruntEvalContext (workdirArg args) (optionsArg w args)
           w.blankExtensions (ctxRet w args)] ++
        errLog (ctxRet w args).2 "Create HCL Eval Context Had The Following Errors: ",
        traceFromValue w args, ?_, fun hne => absurd hnil hne⟩, fun hne => absurd hnil hne⟩
    simp [e, traceToValue, valueRet]

/-- C7 (as amended) on the malformed expression `1 +`, verbose: the evaluator is invoked
on the context the builder returned, nothing reaches standard output but the two
informational records, and the exit status is 1. -/
theorem main_checks_diagnostics_after_evaluation_witness :
    Event.CreateTerragruntEvalContext ".\\" ⟨(), [("A", "1"), ("B", "=2")]⟩ () ((), none) ∈
      (main (demoWorld parseFails) ⟨"1 +", ".", true, []⟩).trace ∧
    Event.ParseExpression "1 +" "" ⟨1, 1, 0⟩ ("1 +", [missingExpr]) ∈
      (main (demoWorld parseFails) ⟨"1 +", ".", true, []⟩).trace ∧
    (main (demoWorld parseFails) ⟨"1 +", ".", true, []⟩).stdout =
      [Written.logLine "INFO\t" "Workdir: \n.\n\n",
       Written.logLine "INFO\t" "Expression: \n1 +\n\n"] ∧
    (main (demoWorld parseFails) ⟨"1 +", ".", true, []⟩).exit = 1 :=
  have hc : Event.CreateTerragruntEvalContext ".\\" ⟨(), [("A", "1"), ("B", "=2")]⟩ ()
      ((), none) ∈ (main (demoWorld parseFails) ⟨"1 +", ".", true, []⟩).trace := by
    simp [main, demoWorld, parseFails]
    decide
  have hp : Event.ParseExpression "1 +" "" ⟨1, 1, 0⟩ ("1 +", [missingExpr]) ∈
      (main (demoWorld parseFails) ⟨"1 +", ".", true, []⟩).trace := by
    simp [main, demoWorld, parseFails]
  have h := (main_checks_diagnostics_after_evaluation (demoWorld parseFails)
    ⟨"1 +", ".", true, []⟩ "1 +" "" ⟨1, 1, 0⟩ ("1 +", [missingExpr]) ".\\"
    ⟨(), [("A", "1"), ("B", "=2")]⟩ () ((), none) hc hp).2 (by decide)
  ⟨hc, hp, h.2.2.2.1, h.2.2.2.2⟩

/-- C8: the working directory `main` hands to the options builder and to the
evaluation-context builder is one and the same string, the `-workdir` value followed by
one backslash; on a host whose path separator is the slash that string is not the value
followed by the separator of the host. -/
theorem main_workdir_gets_backslash {τ : Types} (w : World τ) (args : Flags)
    (d₁ d₂ : String) (oret : TerragruntOptions τ × Option GoError)
    (opts : TerragruntOptions τ) (ext : τ.Extensions) (cret : τ.EvalContext × Option GoError)
    (ho : Event.NewTerragruntOptions d₁ oret ∈ (main w args).trace)
    (hc : Event.CreateTerragruntEvalContext d₂ opts ext cret ∈ (main w args).trace) :
    d₁ = args.workdir ++ "\\" ∧ d₂ = args.workdir ++ "\\" ∧ d₁ = d₂ ∧
    d₁ ≠ args.workdir ++ String.singleton (PathSeparator false) := by
  have hne : args.workdir ++ "\\" ≠ args.workdir ++ String.singleton (PathSeparator false) := by
    intro h
    have := congrArg String.data h
    simp [String.data_append, PathSeparator, String.singleton] at this
  rcases main_cases w args with ⟨_, e⟩ | ⟨err, _, _, e⟩ | ⟨_, _, hn, e⟩ | ⟨_, _, hz, e⟩
  · simp [e] at ho
  · simp [e, mem_verboseLog] at hc
  · simp only [e, List.mem_append] at ho hc
    simp [traceToValue, diagLog, mem_verboseLog, mem_errLog, workdirArg] at ho hc
    obtain ⟨rfl, -⟩ := ho
    obtain ⟨rfl, -⟩ := hc
    exact ⟨rfl, rfl, rfl, hne⟩
  · cases hverb : args.verbose <;>
    simp only [e, List.mem_append] at ho hc <;>
    simp [traceToValue, traceFromValue, mem_verboseLog, mem_errLog, hverb, workdirArg]
      at ho hc <;>
    obtain ⟨rfl, -⟩ := ho <;>
    obtain ⟨rfl, -⟩ := hc <;>
    exact ⟨rfl, rfl, rfl, hne⟩

/-- C8 on the working directory `/srv/live` on a host whose separator is the slash: both
builders receive `/srv/live\`, which is not `/srv/live/`. -/
theorem main_workdir_gets_backslash_witness :
    Event.NewTerragruntOptions "/srv/live\\" (⟨(), []⟩, none) ∈
      (main (demoWorld allFine) ⟨"1 + 1", "/srv/live", false, []⟩).trace ∧
    Event.CreateTerragruntEvalContext "/srv/live\\" ⟨(), [("A", "1"), ("B", "=2")]⟩ ()
        ((), none) ∈ (main (demoWorld allFine) ⟨"1 + 1", "/srv/live", false, []⟩).trace ∧
    "/srv/live\\" ≠ "/srv/live/" ∧
    ("/srv/live\\" : String) ≠ "/srv/live" ++ String.singleton (PathSeparator false) :=
  have ho : Event.NewTerragruntOptions "/srv/live\\" (⟨(), []⟩, none) ∈
      (main (demoWorld allFine) ⟨"1 + 1", "/srv/live", false, []⟩).trace := by
    simp [main, demoWorld, allFine]
  have hc : Event.CreateTerragruntEvalContext "/srv/live\\" ⟨(), [("A", "1"), ("B", "=2")]⟩ ()
      ((), none) ∈ (main (demoWorld allFine) ⟨"1 + 1", "/srv/live", false, []⟩).trace := by
    simp [main, demoWorld, allFine]
    decide
  ⟨ho, hc, by decide,
    (main_workdir_gets_backslash (demoWorld allFine) ⟨"1 + 1", "/srv/live", false, []⟩
      "/srv/live\\" "/srv/live\\" (⟨(), []⟩, none) ⟨(), [("A", "1"), ("B", "=2")]⟩ ()
      ((), none) ho hc).2.2.2⟩

/-- C9: on a failing run the diagnostics are reported as the concatenation of the two
sequences. For every run whose parse and evaluation diagnostics are not zero in number,
the error stream receives, after the record of a context-builder error (if there was
one) and the record of the count, one record per diagnostic, `len(parseDiags) +
len(valDiags)` of them, the parse diagnostics first, each sequence in its own order. -/
theorem main_reports_diagnostics_in_order {τ : Types} (w : World τ) (args : Flags)
    (src filename : String) (start : Pos) (pret : τ.Expression × List Diagnostic)
    (expr : τ.Expression) (ctx : τ.EvalContext) (vret : τ.CtyValue × List Diagnostic)
    (d : String) (opts : TerragruntOptions τ) (ext : τ.Extensions)
    (cret : τ.EvalContext × Option GoError)
    (hc : Event.CreateTerragruntEvalContext d opts ext cret ∈ (main w args).trace)
    (hp : Event.ParseExpression src filename start pret ∈ (main w args).trace)
    (hv : Event.Value expr ctx vret ∈ (main w args).trace)
    (hn : pret.2.length + vret.2.length ≠ 0) :
    (main w args).stderr =
      (match cret.2 with
        | some e =>
          [Written.logLine "ERROR\t" ("Create HCL Eval Context Had The Following Errors: " ++ e)]
        | none => []) ++
      [Written.logLine "ERROR\t"
        ("wrong number of diagnostics " ++ toString (pret.2.length + vret.2.length) ++
          "; want " ++ toString 0 ++ " \n")] ++
      (pret.2.map (fun diag => Written.logLine "ERROR\t" ("ParseDiag - " ++ diag.Error ++ " \n")) ++
        vret.2.map (fun diag => Written.logLine "ERROR\t" ("ValDiag - " ++ diag.Error ++ " \n"))) ∧
    (pret.2.map (fun diag => Written.logLine "ERROR\t" ("ParseDiag - " ++ diag.Error ++ " \n")) ++
        vret.2.map (fun diag => Written.logLine "ERROR\t" ("ValDiag - " ++ diag.Error ++ " \n"))).length =
      pret.2.length + vret.2.length := by
  refine ⟨?_, by simp⟩
  rcases main_cases w args with ⟨_, e⟩ | ⟨err, _, _, e⟩ | ⟨_, _, _, e⟩ | ⟨_, _, hz, e⟩
  · simp [e] at hp
  · simp [e, mem_verboseLog] at hp
  · simp only [e, List.mem_append] at hp hv hc
    simp [traceToValue, diagLog, mem_verboseLog, mem_errLog] at hp hv hc
    obtain ⟨-, -, -, rfl⟩ := hp
    obtain ⟨-, -, rfl⟩ := hv
    obtain ⟨-, -, -, rfl⟩ := hc
    have hhead : ∀ (msg : String) (t : List (Event τ)),
        (Event.Printf errorLog msg :: t).filterMap (written .Stderr) =
          Written.logLine "ERROR\t" msg :: t.filterMap (written .Stderr) := by
      intro msg t
      simp [List.filterMap_cons, written, errorLog]
    simp only [e, Run.stderr, traceToValue, diagLog, List.filterMap_append, hhead,
      stderr_verboseLog, stderr_errLog, stderr_map_errorLog, diagCountOf]
    simp only [List.filterMap_cons, List.filterMap_nil, written]
    cases (ctxRet w args).2 <;> simp
  · cases hverb : args.verbose <;>
    simp only [e, List.mem_append] at hp hv <;>
    simp [traceToValue, traceFromValue, mem_verboseLog, mem_errLog, hverb] at hp hv <;>
    obtain ⟨-, -, -, rfl⟩ := hp <;>
    obtain ⟨-, -, rfl⟩ := hv <;>
    exact absurd hz hn

/-- C9 on a run with two parse diagnostics and one evaluation diagnostic, after a
failure of the context builder: the error stream holds five records, the three
diagnostics last and in order. -/
theorem main_reports_diagnostics_in_order_witness :
    Event.CreateTerragruntEvalContext ".\\" ⟨(), [("A", "1"), ("B", "=2")]⟩ ()
        ((), some "no context") ∈ (main (demoWorld manyDiags) ⟨"1 +", ".", true, []⟩).trace ∧
    Event.ParseExpression "1 +" "" ⟨1, 1, 0⟩ ("1 +", [missingExpr, deprecated]) ∈
      (main (demoWorld manyDiags) ⟨"1 +", ".", true, []⟩).trace ∧
    Event.Value "1 +" () ((2 : Nat), [unknownVar]) ∈
      (main (demoWorld manyDiags) ⟨"1 +", ".", true, []⟩).trace ∧
    (main (demoWorld manyDiags) ⟨"1 +", ".", true, []⟩).stderr =
      [Written.logLine "ERROR\t" "Create HCL Eval Context Had The Following Errors: no context",
       Written.logLine "ERROR\t" "wrong number of diagnostics 3; want 0 \n",
       Written.logLine "ERROR\t" "ParseDiag - <nosource>: Missing expression \n",
       Written.logLine "ERROR\t" "ParseDiag - <nosource>: Deprecated \n",
       Written.logLine "ERROR\t" "ValDiag - <nosource>: Unknown variable \n"] :=
  have hc : Event.CreateTerragruntEvalContext ".\\" ⟨(), [("A", "1"), ("B", "=2")]⟩ ()
      ((), some "no context") ∈ (main (demoWorld manyDiags) ⟨"1 +", ".", true, []⟩).trace := by
    simp [main, demoWorld, manyDiags]
    decide
  have hp : Event.ParseExpression "1 +" "" ⟨1, 1, 0⟩ ("1 +", [missingExpr, deprecated]) ∈
      (main (demoWorld manyDiags) ⟨"1 +", ".", true, []⟩).trace := by
    simp [main, demoWorld, manyDiags]
  have hv : Event.Value "1 +" () ((2 : Nat), [unknownVar]) ∈
      (main (demoWorld manyDiags) ⟨"1 +", ".", true, []⟩).trace := by
    simp [main, demoWorld, manyDiags]
  ⟨hc, hp, hv, (main_reports_diagnostics_in_order (demoWorld manyDiags)
    ⟨"1 +", ".", true, []⟩ "1 +" "" ⟨1, 1, 0⟩ ("1 +", [missingExpr, deprecated]) "1 +" ()
    ((2 : Nat), [unknownVar]) ".\\" ⟨(), [("A", "1"), ("B", "=2")]⟩ () ((), some "no context")
    hc hp hv (by decide)).1⟩

/-- The exit status of a run of `main` from line 64 on: it is 0 or 1, and not zero exactly
on a positional argument, an error of the options builder, or diagnostics; an error of
the evaluation-context builder, of the marshaller or of the indenter is logged and the
run goes on. -/
theorem main_exit_policy {τ : Types} (w : World τ) (args : Flags) :
    ((main w args).exit = 0 ∨ (main w args).exit = 1) ∧
    ((main w args).exit ≠ 0 ↔
      (args.extraArgs ≠ [] ∨
        (∃ d ret, Event.NewTerragruntOptions d ret ∈ (main w args).trace ∧ ret.2 ≠ none) ∨
        (∃ src filename start pret expr ctx vret,
          Event.ParseExpression src filename start pret ∈ (main w args).trace ∧
          Event.Value expr ctx (vret : τ.CtyValue × List Diagnostic) ∈ (main w args).trace ∧
          pret.2.length + vret.2.length ≠ 0))) ∧
    (∀ d opts ext cret e,
      Event.CreateTerragruntEvalContext d opts ext cret ∈ (main w args).trace →
      cret.2 = some e →
      Event.Printf errorLog ("Create HCL Eval Context Had The Following Errors: " ++ e) ∈
        (main w args).trace ∧
      ∃ src filename start pret vret,
        Event.ParseExpression src filename start pret ∈ (main w args).trace ∧
        Event.Value pret.1 cret.1 vret ∈ (main w args).trace) ∧
    (∀ val ty mret e,
      Event.Marshal val ty mret ∈ (main w args).trace → mret.2 = some e →
      Event.Printf errorLog ("JSON Marshal Had The Following Errors: " ++ e) ∈
        (main w args).trace ∧
      (∃ iret, Event.Indent mret.1 "" "  " iret ∈ (main w args).trace) ∧
      (main w args).exit = 0) ∧
    (∀ src pfx indent iret e,
      Event.Indent src pfx indent iret ∈ (main w args).trace → iret.2 = some e →
      Event.Printf errorLog ("JSON Indent Had The Following Errors: " ++ e) ∈
        (main w args).trace ∧
      (Event.Print iret.1 ∈ (main w args).trace ∨
        Event.Printf infoLog ("Got String: \n" ++ iret.1) ∈ (main w args).trace) ∧
      (main w args).exit = 0) := by
  rcases main_cases w args with ⟨h, e⟩ | ⟨err, h, ho, e⟩ | ⟨h, ho, hn, e⟩ | ⟨h, ho, hz, e⟩
  · simp [e, h]
  · refine ⟨by simp [e], ?_, ?_, ?_, ?_⟩
    · simp only [e]
      refine ⟨fun _ => Or.inr (Or.inl ⟨workdirArg args, optionsRet w args, ?_, ?_⟩),
        fun _ => by simp⟩
      · simp
      · simp [ho]
    · simp [e, mem_verboseLog]
    · simp [e, mem_verboseLog]
    · simp [e, mem_verboseLog]
  · refine ⟨by simp [e], ?_, ?_, ?_, ?_⟩
    · simp only [e]
      refine ⟨fun _ => Or.inr (Or.inr ⟨args.expression, "", ⟨1, 1, 0⟩, parseRet w args,
        (parseRet w args).1, (ctxRet w args).1, valueRet w args, ?_, ?_, hn⟩),
        fun _ => by simp⟩
      · simp [traceToValue]
      · simp [traceToValue]
    · intro d opts ext cret err hc herr
      simp only [e, List.mem_append] at hc
      simp [traceToValue, diagLog, mem_verboseLog, mem_errLog] at hc
      obtain ⟨-, -, -, rfl⟩ := hc
      refine ⟨?_, args.expression, "", ⟨1, 1, 0⟩, parseRet w args, valueRet w args, ?_, ?_⟩
      · simp [e, traceToValue, mem_errLog, herr]
      · simp [e, traceToValue]
      · simp [e, traceToValue]
    · simp [e, traceToValue, diagLog, mem_verboseLog, mem_errLog]
    · simp [e, traceToValue, diagLog, mem_verboseLog, mem_errLog]
  · have hmem : ∀ ev : Event τ, ev ∈ (main w args).trace ↔
        ev ∈ traceToValue w args ∨ ev ∈ traceFromValue w args := by
      intro ev
      simp [e]
    refine ⟨by simp [e], ?_, ?_, ?_, ?_⟩
    · refine ⟨fun h0 => absurd (by simp [e]) h0, ?_⟩
      rintro (h0 | ⟨d, ret, hev, hret⟩ | ⟨src, filename, start, pret, expr, ctx, vret, hp, hv, hc⟩)
      · exact absurd h h0
      · exfalso
        rw [hmem] at hev
        cases hverb : args.verbose <;>
        simp [traceToValue, traceFromValue, mem_verboseLog, mem_errLog, hverb] at hev <;>
        obtain ⟨-, rfl⟩ := hev <;>
        exact hret ho
      · exfalso
        rw [hmem] at hp hv
        cases hverb : args.verbose <;>
        simp [traceToValue, traceFromValue, mem_verboseLog, mem_errLog, hverb] at hp hv <;>
        obtain ⟨-, -, -, rfl⟩ := hp <;>
        obtain ⟨-, -, rfl⟩ := hv <;>
        exact hc hz
    · intro d opts ext cret err hc herr
      rw [hmem] at hc
      have hc' : cret = ctxRet w args := by
        cases hverb : args.verbose <;>
        simp [traceToValue, traceFromValue, mem_verboseLog, mem_errLog, hverb] at hc <;>
        exact hc.2.2.2
      subst hc'
      refine ⟨?_, args.expression, "", ⟨1, 1, 0⟩, parseRet w args, valueRet w args, ?_, ?_⟩
      · simp [e, traceToValue, mem_errLog, herr]
      · simp [e, traceToValue]
      · simp [e, traceToValue]
    · intro val ty mret err hm herr
      rw [hmem] at hm
      have hm' : mret = marshalRet w args := by
        cases hverb : args.verbose <;>
        simp [traceToValue, traceFromValue, mem_verboseLog, mem_errLog, hverb] at hm <;>
        exact hm.2.2
      subst hm'
      refine ⟨?_, ⟨indentRet w args, ?_⟩, by simp [e]⟩
      · simp [e, traceFromValue, mem_errLog, herr]
      · simp [e, traceFromValue]
    · intro src pfx indent iret err hi herr
      rw [hmem] at hi
      have hi' : iret = indentRet w args := by
        cases hverb : args.verbose <;>
        simp [traceToValue, traceFromValue, mem_verboseLog, mem_errLog, hverb] at hi <;>
        exact hi.2.2.2
      subst hi'
      refine ⟨?_, ?_, by simp [e]⟩
      · simp [e, traceFromValue, mem_errLog, herr]
      · cases hverb : args.verbose <;> simp [e, traceFromValue, hverb]

/-- C6, the claim as stated fails: on the command line `-bogus` there is no positional
argument, the options builder is never called, nothing is parsed or evaluated, and the
process exits with status 2. -/
theorem mainProcess_exit_status_counterexample :
    Parse flagDefaults ["-bogus"] = ParseResult.failed (FlagError.notDefined "bogus") ∧
    (∀ a ∈ ["-bogus"], a.data.head? = some '-') ∧
    (∀ d ret, Event.NewTerragruntOptions d ret ∉
      (mainProcess (demoWorld allFine) ["-bogus"]).trace) ∧
    (∀ src filename start ret, Event.ParseExpression src filename start ret ∉
      (mainProcess (demoWorld allFine) ["-bogus"]).trace) ∧
    (∀ expr ctx ret, Event.Value expr ctx ret ∉
      (mainProcess (demoWorld allFine) ["-bogus"]).trace) ∧
    (mainProcess (demoWorld allFine) ["-bogus"]).stdout = [] ∧
    (mainProcess (demoWorld allFine) ["-bogus"]).exit = 2 ∧
    (mainProcess (demoWorld allFine) ["-bogus"]).exit ≠ 0 := by
  have hparse : Parse flagDefaults ["-bogus"] =
      ParseResult.failed (FlagError.notDefined "bogus") := by decide
  refine ⟨hparse, by decide, ?_, ?_, ?_, by decide, by decide, by decide⟩ <;>
  simp [mainProcess, hparse]

/-- C6 (as amended): the exit status of `main`, over all command lines and all outcomes
of its collaborators. The status is 0, 1 or 2. It is 2 exactly when `flag.Parse()`
rejects the command line with an error other than the request for help (bad flag
syntax, a flag that is not defined, a boolean value that does not parse, a missing
value). It is not zero exactly when the command line is so rejected, or a positional
argument is present, or the options builder returns an error, or the number of parse
and evaluation diagnostics is not zero. An error of the evaluation-context builder, of
the marshaller or of the indenter is logged on the error logger and the run goes on: to
the parse and the evaluation, to the indenting, to the final write, and the last two
runs end with status 0. -/
theorem mainProcess_exit_status {τ : Types} (w : World τ) (arguments : List String) :
    ((mainProcess w arguments).exit = 0 ∨ (mainProcess w arguments).exit = 1 ∨
      (mainProcess w arguments).exit = 2) ∧
    ((mainProcess w arguments).exit = 2 ↔
      ∃ err, Parse flagDefaults arguments = ParseResult.failed err ∧ err ≠ FlagError.ErrHelp) ∧
    ((mainProcess w arguments).exit ≠ 0 ↔
      ((∃ err, Parse flagDefaults arguments = ParseResult.failed err ∧
          err ≠ FlagError.ErrHelp) ∨
        (∃ args, Parse flagDefaults arguments = ParseResult.parsed args ∧
          args.extraArgs ≠ []) ∨
        (∃ d ret, Event.NewTerragruntOptions d ret ∈ (mainProcess w arguments).trace ∧
          ret.2 ≠ none) ∨
        (∃ src filename start pret expr ctx vret,
          Event.ParseExpression src filename start pret ∈ (mainProcess w arguments).trace ∧
          Event.Value expr ctx (vret : τ.CtyValue × List Diagnostic) ∈
            (mainProcess w arguments).trace ∧
          pret.2.length + vret.2.length ≠ 0))) ∧
    (∀ d opts ext cret e,
      Event.CreateTerragruntEvalContext d opts ext cret ∈ (mainProcess w arguments).trace →
      cret.2 = some e →
      Event.Printf errorLog ("Create HCL Eval Context Had The Following Errors: " ++ e) ∈
        (mainProcess w arguments).trace ∧
      ∃ src filename start pret vret,
        Event.ParseExpression src filename start pret ∈ (mainProcess w arguments).trace ∧
        Event.Value pret.1 cret.1 vret ∈ (mainProcess w arguments).trace) ∧
    (∀ val ty mret e,
      Event.Marshal val ty mret ∈ (mainProcess w arguments).trace → mret.2 = some e →
      Event.Printf errorLog ("JSON Marshal Had The Following Errors: " ++ e) ∈
        (mainProcess w arguments).trace ∧
      (∃ iret, Event.Indent mret.1 "" "  " iret ∈ (mainProcess w arguments).trace) ∧
      (mainProcess w arguments).exit = 0) ∧
    (∀ src pfx indent iret e,
      Event.Indent src pfx indent iret ∈ (mainProcess w arguments).trace → iret.2 = some e →
      Event.Printf errorLog ("JSON Indent Had The Following Errors: " ++ e) ∈
        (mainProcess w arguments).trace ∧
      (Event.Print iret.1 ∈ (mainProcess w arguments).trace ∨
        Event.Printf infoLog ("Got String: \n" ++ iret.1) ∈ (mainProcess w arguments).trace) ∧
      (mainProcess w arguments).exit = 0) := by
  cases hparse : Parse flagDefaults arguments with
  | failed err =>
    cases err <;> simp [mainProcess, hparse]
  | parsed args =>
    have hrun : mainProcess w arguments = main w args := by
      simp [mainProcess, hparse]
    obtain ⟨h01, hiff, hctx, hmarshal, hindent⟩ := main_exit_policy w args
    rw [hrun]
    refine ⟨?_, ?_, ?_, hctx, hmarshal, hindent⟩
    · rcases h01 with h | h
      · exact Or.inl h
      · exact Or.inr (Or.inl h)
    · constructor
      · intro h2
        rcases h01 with h | h <;> omega
      · rintro ⟨err, herr, -⟩
        exact absurd herr (by simp)
    · rw [hiff]
      constructor
      · rintro (h | h | h)
        · exact Or.inr (Or.inl ⟨args, rfl, h⟩)
        · exact Or.inr (Or.inr (Or.inl h))
        · exact Or.inr (Or.inr (Or.inr h))
      · rintro (⟨err, herr, -⟩ | ⟨args', hargs, h⟩ | h | h)
        · exact absurd herr (by simp)
        · have : args' = args := by
            injection hargs with h'
            exact h'.symm
          subst this
          exact Or.inl h
        · exact Or.inr (Or.inl h)
        · exact Or.inr (Or.inr h)

/-- C6 (as amended) on the command line `-verbose=false -expression 1+1` in a world in
which the context builder, the marshaller and the indenter all fail and there is no
diagnostic: the three errors are logged, the JSON is written, and the exit status is 0;
and on the command line `-expression 1+1 extra`, with a positional argument, the exit
status is 1. -/
theorem mainProcess_exit_status_witness :
    Parse flagDefaults ["-verbose=false", "-expression", "1+1"] =
      ParseResult.parsed ⟨"1+1", ".", false, []⟩ ∧
    Event.Indent "2" "" "  " ("2", some "no indent") ∈
      (mainProcess (demoWorld softFailures) ["-verbose=false", "-expression", "1+1"]).trace ∧
    (mainProcess (demoWorld softFailures) ["-verbose=false", "-expression", "1+1"]).stderr =
      [Written.logLine "ERROR\t" "Create HCL Eval Context Had The Following Errors: no context",
       Written.logLine "ERROR\t" "JSON Marshal Had The Following Errors: no JSON",
       Written.logLine "ERROR\t" "JSON Indent Had The Following Errors: no indent"] ∧
    (mainProcess (demoWorld softFailures) ["-verbose=false", "-expression", "1+1"]).stdout =
      [Written.text "2"] ∧
    (mainProcess (demoWorld softFailures) ["-verbose=false", "-expression", "1+1"]).exit = 0 ∧
    (mainProcess (demoWorld allFine) ["-expression", "1+1", "extra"]).exit = 1 ∧
    (mainProcess (demoWorld allFine) ["-h"]).exit = 0 ∧
    (mainProcess (demoWorld allFine) ["-verbose=maybe"]).exit = 2 :=
  have hparse : Parse flagDefaults ["-verbose=false", "-expression", "1+1"] =
      ParseResult.parsed ⟨"1+1", ".", false, []⟩ := by decide
  have hi : Event.Indent "2" "" "  " ("2", some "no indent") ∈
      (mainProcess (demoWorld softFailures)
        ["-verbose=false", "-expression", "1+1"]).trace := by
    simp [mainProcess, hparse, main, demoWorld, softFailures]
    decide
  ⟨hparse, hi, by decide, by decide,
    ((mainProcess_exit_status (demoWorld softFailures)
      ["-verbose=false", "-expression", "1+1"]).2.2.2.2.2
      "2" "" "  " ("2", some "no indent") "no indent" hi rfl).2.2,
    by decide, by decide, by decide⟩

end Terrafunk
